import Mathlib

/-
  Verification development for the lisp-interpreter repository (src/lisp.c).

  The C source is shallowly embedded: pure fragments become Lean functions,
  the mutable heap of cons cells is made explicit where a claim is about
  mutation or freshness, machine integers are modelled as Nat/Int with
  explicit `% 2^32` where unsigned wraparound matters, C floats appearing in
  the source are modelled as rationals (every IEEE float is a rational, and
  at the inputs relevant here the float comparisons and the int cast agree
  with the exact rational ones), and code that crashes (null/garbage
  dereference through the accessor macros) or errors (longjmp) returns an
  error value.

  The struct `LispBlock` and the accessor macros `lisp_car`, `lisp_cdr`,
  `lisp_set_car`, `lisp_set_cdr`, `lisp_type`, `lisp_is_null` live in the
  header lisp.h, which is not part of the sources available here.  They are
  modelled from the spec (section 3: a pair's payload is exactly two adjacent
  values named car and cdr; a block header carries type/flags/payload
  length) and from their uses inside lisp.c (e.g. `lisp_cdr(l) = p` at
  lisp.c:352 shows that the accessors are unchecked lvalue macros, so
  applying them to a non-pair dereferences an invalid block pointer:
  modelled as an error/none result below).
-/

set_option maxRecDepth 8192
set_option maxHeartbeats 1000000

namespace LispSpec

/- ## Section 1: page-level heap models (heap_alloc, lisp_collect, gc_move) -/

/-- A page as in struct Page (lisp.c:33-39): a fill level (`size`, the bump
pointer) and a fixed `capacity`. -/
structure CPage where
  size : Nat
  capacity : Nat
deriving DecidableEq, Repr

/-- Which page a `heap_alloc` request ends at. -/
inductive AllocChoice where
  | current
  | reuseNext
  | freshPage (cap : Nat)
deriving DecidableEq, Repr

/-- PAGE_SIZE (lisp.c:84). -/
def PAGE_SIZE : Nat := 8192

/-- Page-selection logic of heap_alloc (lisp.c:124-157), verbatim:
the block goes to the current page unless `page->size + alloc_size >
page->capacity`; in that case the next page is reused iff it exists and
`page->next->size + alloc_size > page->capacity`, and otherwise a fresh page
of size `max(PAGE_SIZE, alloc_size)` is created.  `alloc_size` is
`data_size + sizeof(LispBlock)`. -/
def heap_alloc_choice (page : CPage) (next : Option CPage) (alloc_size : Nat) :
    AllocChoice :=
  if page.size + alloc_size > page.capacity then
    match next with
    | some n =>
        if n.size + alloc_size > page.capacity then
          AllocChoice.reuseNext
        else
          AllocChoice.freshPage (if alloc_size ≤ PAGE_SIZE then PAGE_SIZE else alloc_size)
    | none => AllocChoice.freshPage (if alloc_size ≤ PAGE_SIZE then PAGE_SIZE else alloc_size)
  else
    AllocChoice.current

/-- The page selection as the claim (and spec section 4.1) states it: the
already-existing next page becomes current exactly when the request fits in
it; a fresh page is created only when no existing next page fits. -/
def heap_alloc_choice_claim (page : CPage) (next : Option CPage) (alloc_size : Nat) :
    AllocChoice :=
  if page.size + alloc_size > page.capacity then
    match next with
    | some n =>
        if n.size + alloc_size ≤ n.capacity then
          AllocChoice.reuseNext
        else
          AllocChoice.freshPage (if alloc_size ≤ PAGE_SIZE then PAGE_SIZE else alloc_size)
    | none => AllocChoice.freshPage (if alloc_size ≤ PAGE_SIZE then PAGE_SIZE else alloc_size)
  else
    AllocChoice.current

/-- A to-space page during the scavenge of lisp_collect: the fill level
(`size`, what the claim calls the write pointer), the capacity, and the
`data_size` header field of whatever bytes sit at a given offset
(offsets below `size` hold real blocks; offsets at or above `size` hold
stale bytes). -/
structure GCPage where
  size : Nat
  capacity : Nat
  data_size_at : Nat → Nat

/-- The offsets at which the scavenge loop of lisp_collect (lisp.c:1825-1869)
interprets a block header on one page: starting at offset 0 it loops
`while (offset < page->capacity)`, advancing by
`sizeof(LispBlock) + block->data_size` each step.  Fuel caps the number of
iterations. -/
def gc_scan_offsets (header_size : Nat) (p : GCPage) : Nat → Nat → List Nat
  | 0, _ => []
  | fuel + 1, off =>
      if off < p.capacity then
        off :: gc_scan_offsets header_size p fuel (off + header_size + p.data_size_at off)
      else
        []

/-- The scan as the claim states it: it stops when the scan pointer reaches
the write pointer (the page's fill level), so only allocated blocks are
interpreted. -/
def gc_scan_offsets_claim (header_size : Nat) (p : GCPage) : Nat → Nat → List Nat
  | 0, _ => []
  | fuel + 1, off =>
      if off < p.size then
        off :: gc_scan_offsets_claim header_size p fuel (off + header_size + p.data_size_at off)
      else
        []

/-- A concrete to-space page after a collection that moved a single block of
16 payload bytes (header modelled as 8 bytes): fill level 24, capacity 8192,
with stale bytes beyond offset 24 whose `data_size` fields happen to read
8152 and then 0. -/
def c1Page : GCPage :=
  { size := 24
    capacity := 8192
    data_size_at := fun off => if off = 0 then 16 else if off = 24 then 8152 else 0 }

/-- Table-resize capacity computation of gc_move (lisp.c:1744-1753).
`size` and `capacity` are the table's unsigned short fields.  The float
load-factor tests `size/(float)capacity > 0.75f || size/(float)capacity <
0.1f` are expressed as the exact rational comparisons (for `size, capacity ≤
65535` the rounded float quotient compares to 0.75f and 0.1f exactly as the
rational quotient compares to 3/4 and 1/10, because the quotient can get no
closer than about 1.5e-6 to either constant while one float ulp there is at
most 6e-8).  `(table->size * 3) - 1` is int arithmetic assigned to an
`unsigned int`, hence the conversion to a value mod 2^32; the
`if (new_capacity < 1)` clamp is kept verbatim. -/
def gc_move_table_capacity (size capacity : Nat) : Nat :=
  if 4 * size > 3 * capacity ∨ 10 * size < capacity then
    let new_capacity : Nat := (((3 : Int) * size - 1) % (2 ^ 32)).toNat
    if new_capacity < 1 then 1 else new_capacity
  else
    capacity

/- ## Section 2: symbol interner (hash_string, table_get_string, lisp_make_symbol)

Symbol names are byte lists (the C strings are NUL-terminated byte arrays;
the NUL terminator is implicit in the list length).  `toupper`/`tolower`
are modelled on ASCII bytes, which is the range the lexer produces. -/

/-- toupper on a byte (lisp.c uses ctype toupper on symbol characters). -/
def upChar (c : Nat) : Nat := if 97 ≤ c ∧ c ≤ 122 then c - 32 else c

/-- tolower on a byte. -/
def downChar (c : Nat) : Nat := if 65 ≤ c ∧ c ≤ 90 then c + 32 else c

/-- hash_string (lisp.c:444-457): Adler-32 over the uppercased bytes, with
the final `(s2 << 16) | s1` expressed as `s2 * 65536 + s1` (both sums are
below 65521 so the shift-or is exact; the C int shift wraps into the
returned unsigned int with exactly this value). -/
def hash_string (s : List Nat) : Nat :=
  let p := s.foldl
    (fun (p : Nat × Nat) c =>
      let s1 := (p.1 + upChar c) % 65521
      (s1, (p.2 + s1) % 65521))
    (1, 0)
  p.2 * 65536 + p.1

/-- `strncasecmp(a, b, n) == 0`: case-insensitive comparison of at most `n`
bytes, stopping at the end of either string (a NUL in the C string). -/
def strncaseEq : List Nat → List Nat → Nat → Bool
  | a, b, n =>
    match n, a, b with
    | 0, _, _ => true
    | _ + 1, [], [] => true
    | _ + 1, [], _ :: _ => false
    | _ + 1, _ :: _, [] => false
    | n + 1, x :: xs, y :: ys => upChar x == upChar y && strncaseEq xs ys n

/-- The symbol table: `capacity` buckets (lisp.c Table with 512 buckets for
the interner); `buckets` maps a bucket index to the ids of the symbol
blocks chained there, most recently interned first (lisp_table_set
prepends, lisp.c:1394-1413); `names` maps a symbol block id to the stored
(uppercased) name, ids being allocation order.  Block identity (pointer
identity, `eq?`) is the id. -/
structure SymTab where
  capacity : Nat
  buckets : List (List Nat)
  names : List (List Nat)
deriving DecidableEq, Repr

/-- table_get_string (lisp.c:421-442): probe the bucket `hash % capacity`
and return the first chained symbol whose stored name is strncasecmp-equal
to the probe string over at most 2048 bytes. -/
def table_get_string (t : SymTab) (s : List Nat) (hash : Nat) : Option Nat :=
  (t.buckets.getD (hash % t.capacity) []).find?
    (fun id => strncaseEq (t.names.getD id []) s 2048)

/-- lisp_make_symbol (lisp.c:459-493): hash the string (toupper'd), probe
the interner; on a hit return the existing block, on a miss allocate a new
symbol block, uppercase the stored name in place, and record it in the
bucket `hash % capacity` (lisp_table_set prepends and the cached hash is the
same value that was probed). -/
def lisp_make_symbol (s : List Nat) (t : SymTab) : Nat × SymTab :=
  let hash := hash_string s
  match table_get_string t s hash with
  | some id => (id, t)
  | none =>
      let id := t.names.length
      let idx := hash % t.capacity
      (id, { t with
              names := t.names ++ [s.map upChar]
              buckets := t.buckets.set idx (id :: t.buckets.getD idx []) })

/-- Well-formedness of the interner table: the bucket array has exactly
`capacity` entries, the capacity is positive (512 for the interner), and
every chained id denotes an allocated symbol block. -/
def SymTabWF (t : SymTab) : Prop :=
  t.buckets.length = t.capacity ∧ 0 < t.capacity ∧
    ∀ b ∈ t.buckets, ∀ id ∈ b, id < t.names.length

/-- The empty interner with the source's 512 buckets (lisp.c init uses a
512-bucket table for the symbol table). -/
def emptySymTab : SymTab :=
  { capacity := 512, buckets := List.replicate 512 [], names := [] }

/-- 2048 copies of the byte A, the shared prefix of the C6 counterexample. -/
def prefA : List Nat := List.replicate 2048 65

/-- "AAA...A" (2048 As) followed by "BCB". -/
def c6name1 : List Nat := prefA ++ [66, 67, 66]

/-- "AAA...A" (2048 As) followed by "CAC": same Adler-32 hash as `c6name1`
(equal byte sums and equal position-weighted sums) and equal in the first
2048 bytes, but a different name after case folding. -/
def c6name2 : List Nat := prefA ++ [67, 65, 67]

/- ## Section 3: cons-cell heap and lisp_append

For the claim about lisp_append (freshness of the copy and the original
list being left unmodified) pairs are modelled with an explicit heap of
cons cells; a cell's address is its allocation index. -/

/-- A value as the list utilities see it: nil, an immediate scalar
(int/float/func, opaque here), or a reference to a pair block. -/
inductive LVal where
  | nil
  | atom (n : Nat)
  | ref (a : Nat)
deriving DecidableEq, Repr

/-- A pair block's payload: exactly two adjacent values, car and cdr
(spec section 3). -/
structure Cell where
  car : LVal
  cdr : LVal
deriving DecidableEq, Repr

/-- The heap of pair blocks; allocation appends. -/
abbrev PairHeap := List Cell

/-- lisp_cons: allocate a fresh pair block (gc_alloc + the two stores). -/
def lisp_cons (a d : LVal) (h : PairHeap) : LVal × PairHeap :=
  (LVal.ref h.length, h ++ [⟨a, d⟩])

/-- Modelled from the spec: the accessor macro lisp_car of lisp.h reads the
first payload value of a pair block; applied to anything else it
dereferences an invalid block pointer (none). -/
def lval_car (h : PairHeap) : LVal → Option LVal
  | .ref a => (h.get? a).map Cell.car
  | _ => none

/-- Modelled from the spec: the accessor macro lisp_cdr of lisp.h, second
payload value of a pair block. -/
def lval_cdr (h : PairHeap) : LVal → Option LVal
  | .ref a => (h.get? a).map Cell.cdr
  | _ => none

/-- Modelled from the spec: lisp_set_cdr of lisp.h mutates a pair block's
cdr in place; on a non-pair it writes through an invalid pointer (none). -/
def lisp_set_cdr (h : PairHeap) : LVal → LVal → Option PairHeap
  | .ref a, v =>
      match h.get? a with
      | some c => some (h.set a ⟨c.car, v⟩)
      | none => none
  | _, _ => none

/-- The copy loop of lisp_append (lisp.c:243-249): allocate a cell holding
the current car, hook it behind the running tail, advance both.  Returns
the final tail cell and the heap. -/
def lisp_append_loop : Nat → LVal → LVal → PairHeap → Option (LVal × PairHeap)
  | 0, _, _, _ => none
  | fuel + 1, l, tail, h =>
      if l = LVal.nil then some (tail, h)
      else
        (lval_car h l).bind fun c =>
          let cons1 := lisp_cons c LVal.nil h
          (lisp_set_cdr cons1.2 tail cons1.1).bind fun h2 =>
            (lval_cdr h2 l).bind fun l2 =>
              lisp_append_loop fuel l2 cons1.1 h2

/-- lisp_append (lisp.c:235-253): `if (lisp_is_null(l)) return l;` — then
copy the first list cell by cell and point the copy's last cdr at l2. -/
def lisp_append (fuel : Nat) (l l2 : LVal) (h : PairHeap) :
    Option (LVal × PairHeap) :=
  if l = LVal.nil then some (l, h)
  else
    (lval_car h l).bind fun c =>
      let cons1 := lisp_cons c LVal.nil h
      (lval_cdr cons1.2 l).bind fun l1 =>
        (lisp_append_loop fuel l1 cons1.1 cons1.2).bind fun r =>
          (lisp_set_cdr r.2 r.1 l2).map fun h3 => (cons1.1, h3)

/-- `ChainB h bound v xs t`: starting from value `v` and following cdrs
through pair blocks whose addresses are below `bound`, the cars read are
`xs` and the final cdr is `t`.  With `bound = h.length` this is just "v is
a chain of cells of h spelling xs, terminated by t". -/
inductive ChainB (h : PairHeap) (bound : Nat) : LVal → List LVal → LVal → Prop
  | nil : ∀ t, ChainB h bound t [] t
  | cons : ∀ a c xs t, a < bound → h.get? a = some c →
      ChainB h bound c.cdr xs t → ChainB h bound (LVal.ref a) (c.car :: xs) t

/- ## Section 4: the value tree used by the reader, expander and evaluator

Here values are structural trees (the reader produces trees; sharing and
mutation inside the expander are discussed at the definitions concerned).
Symbols are represented by their stored uppercase name, which the interner
model of section 2 justifies (one block per case-folded name). -/

inductive Value where
  | nil
  | int (n : Int)
  | float (q : ℚ)
  | sym (s : String)
  | str (s : String)
  | pair (a d : Value)
  | lam (id : Nat) (args body : Value) (env : List Nat)
  | func (id : Nat)
deriving DecidableEq, Repr

/-- Build a cdr-chain from elements, ending in `tail`. -/
def consList : List Value → Value → Value
  | [], t => t
  | x :: xs, t => Value.pair x (consList xs t)

/-- A proper list of elements (what back_append builds). -/
def mkList (xs : List Value) : Value := consList xs Value.nil

/-- lisp_length (lisp.c:302-311): walks cdrs counting until null; taking
the cdr of a non-pair, non-null tail dereferences an invalid block (none). -/
def lengthOpt : Value → Option Nat
  | Value.nil => some 0
  | Value.pair _ d => (lengthOpt d).map (· + 1)
  | _ => none

/-- lisp_at_index (lisp.c:255-264): step `i` times, returning null as soon
as a non-pair is hit while stepping; afterwards take the car of what is
left, which on a non-pair dereferences an invalid block (none). -/
def atIndex : Value → Nat → Option Value
  | l, i + 1 =>
      match l with
      | Value.pair _ d => atIndex d i
      | _ => some Value.nil
  | l, 0 =>
      match l with
      | Value.pair a _ => some a
      | _ => none

/-- The elements along a value's cdr chain, and its final non-pair tail. -/
def spine : Value → List Value × Value
  | Value.pair a d => ((a :: (spine d).1), (spine d).2)
  | v => ([], v)

/-- lisp_reverse_inplace (lisp.c:345-358): reverses the pair spine in
place; the loop stops at the first non-pair cdr, so an improper tail is
dropped. -/
def reverse_inplace (v : Value) : Value := consList (spine v).1.reverse Value.nil

/-- lisp_make_listv (lisp.c:324-343): the first argument is always consed;
the following arguments are appended until the first null argument, which
terminates the list (any later arguments are dropped). -/
def make_listv (first : Value) (rest : List Value) : Value :=
  Value.pair first (consList (rest.takeWhile (fun v => !(v == Value.nil))) Value.nil)

/-- The error codes of lisp.h (LispError), plus two markers of the
embedding: `outOfFuel` (artificial recursion bound) and `ub` (the C code
dereferenced an invalid block pointer through the lisp.h accessor macros
or a failed assert — behavior the C source leaves undefined). -/
inductive XErr where
  | none
  | fileOpen
  | parenUnexpected
  | parenExpected
  | badToken
  | badQuote
  | badDefine
  | badSet
  | badCond
  | badAnd
  | badOr
  | badLet
  | badLambda
  | unknownVar
  | badOp
  | badArg
  | unknownEval
  | outOfFuel
  | ub
deriving DecidableEq, Repr

/- ## Section 5: the reader (parse, lisp.c:879-997), at token level -/

/-- Tokens as classified by the lexer (lisp.c:537-547); numeric and string
tokens carry their converted payloads (atoi/atof/quote-stripping happen in
parse_atom).  The end of the token list plays TOKEN_NONE. -/
inductive Token where
  | lparen
  | rparen
  | quote
  | symTok (s : String)
  | intTok (n : Int)
  | floatTok (q : ℚ)
  | strTok (s : String)
deriving DecidableEq, Repr

/-- parse_atom (lisp.c:879-926): atom tokens become values; symbol names
are uppercased (lisp_make_symbol folds the name).  Non-atom tokens hit the
default branch, LISP_ERROR_BAD_TOKEN. -/
def parse_atom : Token → Except XErr Value
  | Token.intTok n => Except.ok (Value.int n)
  | Token.floatTok q => Except.ok (Value.float q)
  | Token.strTok s => Except.ok (Value.str s)
  | Token.symTok s => Except.ok (Value.sym s.toUpper)
  | _ => Except.error XErr.badToken

/-- The two recursion modes of parse_list_r: parsing one form, or the
inner loop of the `(` case collecting items until `)`. -/
inductive PTask where
  | one
  | items (acc : List Value)
deriving DecidableEq, Repr

/-- parse_list_r (lisp.c:929-965): recursive descent over the token
stream.  Returns the parsed form and the remaining tokens.  Fuel bounds
the recursion depth (the C recursion always terminates on finite input). -/
def parseT : Nat → PTask → List Token → Except XErr (Value × List Token)
  | 0, _, _ => Except.error XErr.outOfFuel
  | _ + 1, PTask.one, [] => Except.error XErr.parenExpected
  | fuel + 1, PTask.one, Token.lparen :: ts => parseT fuel (PTask.items []) ts
  | _ + 1, PTask.one, Token.rparen :: _ => Except.error XErr.parenUnexpected
  | fuel + 1, PTask.one, Token.quote :: ts =>
      match parseT fuel PTask.one ts with
      | Except.error e => Except.error e
      | Except.ok (v, ts2) => Except.ok (mkList [Value.sym "QUOTE", v], ts2)
  | _ + 1, PTask.one, tok :: ts =>
      match parse_atom tok with
      | Except.error e => Except.error e
      | Except.ok v => Except.ok (v, ts)
  | fuel + 1, PTask.items acc, Token.rparen :: ts => Except.ok (mkList acc.reverse, ts)
  | fuel + 1, PTask.items acc, ts =>
      match parseT fuel PTask.one ts with
      | Except.error e => Except.error e
      | Except.ok (v, ts2) => parseT fuel (PTask.items (v :: acc)) ts2

/-- The begin-wrap loop of parse (lisp.c:986-990): parse the remaining
top-level forms in source order. -/
def parse_tops : Nat → List Token → Except XErr (List Value)
  | 0, _ => Except.error XErr.outOfFuel
  | _ + 1, [] => Except.ok []
  | fuel + 1, ts =>
      match parseT fuel PTask.one ts with
      | Except.error e => Except.error e
      | Except.ok (v, ts2) =>
          match parse_tops fuel ts2 with
          | Except.error e => Except.error e
          | Except.ok vs => Except.ok (v :: vs)

/-- parse (lisp.c:967-997): parse one form; if more tokens remain, the
result is wrapped as (BEGIN form₁ form₂ …) with the later forms appended
in source order. -/
def parse (fuel : Nat) (ts : List Token) : Except XErr Value :=
  match parseT fuel PTask.one ts with
  | Except.error e => Except.error e
  | Except.ok (v, rest) =>
      if rest = [] then Except.ok v
      else
        match parse_tops fuel rest with
        | Except.error e => Except.error e
        | Except.ok vs => Except.ok (mkList (Value.sym "BEGIN" :: v :: vs))

/- ## Section 6: the evaluator (eval_r, lisp.c:1537-1687) -/

/-- Truncation toward zero of a rational: the C cast `(int)float_val`
(lisp.c:190).  Every IEEE float is a rational and the C cast truncates its
real value toward zero, which for a rational num/den is T-division
(Int.tdiv; Lean's / on Int is Euclidean division, which differs on
negatives). -/
def ratTrunc (q : ℚ) : Int := Int.tdiv q.num (q.den : Int)

/-- lisp_int (lisp.c:187-192): a float is cast to int (truncation toward
zero); otherwise the tagged value's int payload is read — the stored
integer for LISP_INT and 0 for LISP_NULL (lisp_null zeroes int_val,
lisp.c:164-170).  For heap-reference values the union read yields half a
pointer; that is modelled as none (no defined value). -/
def lisp_int : Value → Option Int
  | Value.float q => some (ratTrunc q)
  | Value.int n => some n
  | Value.nil => some 0
  | _ => none

/-- One environment frame.  The C frame is a hash table whose buckets
chain (symbol . value) pairs with at most one pair per symbol
(lisp_table_set replaces in place, lisp.c:1394-1413); an association list
with the same replace-or-insert discipline denotes the same map — the
bucketing by hash and the 13-bucket default size (lisp.c:1646) only
partition it. -/
abbrev Frame := List (String × Value)

/-- lisp_table_set on a frame: replace the first binding in place if the
key is present, else insert a new binding. -/
def table_set : Frame → String → Value → Frame
  | [], k, v => [(k, v)]
  | (k2, w) :: rest, k, v =>
      if k2 = k then (k2, v) :: rest else (k2, w) :: table_set rest k v

/-- lisp_table_get / lisp_assoc on a frame: the value of the first
binding of the key, if any. -/
def table_get (fr : Frame) (k : String) : Option Value :=
  (fr.find? (fun p => p.1 == k)).map Prod.snd

/-- The evaluator-visible context state: the allocated frames (environments
reference frames by index so that set! mutations are shared) and the
lambda identifier counter (lisp.c:516). -/
structure Ctx where
  frames : List Frame
  counter : Nat
deriving Repr

/-- An environment: the chain of frame indices, innermost first (in C a
pair-list whose cars are tables). -/
abbrev Env := List Nat

/-- lisp_env_lookup (lisp.c:1445-1456): walk the frames, return the first
binding found. -/
def env_lookup (st : Ctx) : Env → String → Option Value
  | [], _ => none
  | i :: rest, k =>
      match st.frames.get? i with
      | none => none
      | some fr =>
          match table_get fr k with
          | some v => some v
          | none => env_lookup st rest k

/-- lisp_env_define (lisp.c:1458-1461): set in the innermost frame;
lisp_car of an empty environment, or a dangling frame index, is undefined
(none — unreachable from valid states). -/
def env_define (st : Ctx) (env : Env) (k : String) (v : Value) : Option Ctx :=
  match env with
  | [] => none
  | i :: _ =>
      match st.frames.get? i with
      | none => none
      | some fr => some { st with frames := st.frames.set i (table_set fr k v) }

/-- lisp_env_set (lisp.c:1463-1471): find the first frame binding the
symbol and mutate that binding.  When no frame binds it, the C code prints
the "unknown variable" diagnostic and then unconditionally calls
lisp_set_cdr on the null pair returned by the lookup — a write through an
invalid block pointer (none: undefined behavior, no skip and no normal
continuation). -/
def env_set (st : Ctx) : Env → String → Value → Option Ctx
  | [], _, _ => none
  | i :: rest, k, v =>
      match st.frames.get? i with
      | none => none
      | some fr =>
          if (fr.find? (fun p => p.1 == k)).isSome then
            some { st with frames := st.frames.set i (table_set fr k v) }
          else env_set st rest k v

/-- The formal/actual binding loop of lambda application (lisp.c:1649-1656):
table_set each formal to the matching actual.  lisp_car of an exhausted
actual list, a non-symbol formal (symbol_hash asserts LISP_SYMBOL), or an
improper formal list is undefined (none). -/
def bind_args : Value → List Value → Frame → Option Frame
  | Value.nil, _, fr => some fr
  | Value.pair (Value.sym k) rest, v :: vs, fr => bind_args rest vs (table_set fr k v)
  | _, _, _ => none

/-- The three recursion modes of eval_r: evaluating an expression, the
all-but-last walk of a BEGIN body (lisp.c:1586-1596), and the left-to-right
argument evaluation loop of an application (lisp.c:1630-1638). -/
inductive ETask where
  | expr (x : Value) (env : Env)
  | seq (it : Value) (env : Env)
  | args (it : Value) (env : Env) (acc : List Value)

/-- Result of a task: a value, or the collected argument list. -/
inductive ERes where
  | val (v : Value)
  | vals (vs : List Value)

/-- Coerce a task result to a value result (the args mode never flows into
a value position in the definition below). -/
def expectVal : Except XErr (ERes × Ctx) → Except XErr (Value × Ctx)
  | Except.error e => Except.error e
  | Except.ok (ERes.val v, st) => Except.ok (v, st)
  | Except.ok (ERes.vals _, _) => Except.error XErr.ub

/-- eval_r (lisp.c:1537-1687).  `prims` gives the behavior of host
primitives (LISP_FUNC), which the spec leaves external (section 1); a
primitive returns a value or sets an error that unwinds.  Fuel bounds the
trampoline and the recursion; any terminating C run is reproduced with
enough fuel.  The `assert(!lisp_is_null(env))` at the loop head is the
env ≠ [] test.  Self-evaluating atoms return as-is; LISP_FUNC (and any
other tag) falls through eval_r's switch default to
LISP_ERROR_UNKNOWN_EVAL. -/
def evalT (prims : Nat → List Value → Except XErr Value) :
    Nat → ETask → Ctx → Except XErr (ERes × Ctx)
  | 0, _, _ => Except.error XErr.outOfFuel
  | fuel + 1, ETask.expr x env, st =>
      if env = [] then Except.error XErr.ub
      else
        match x with
        | Value.int _ => Except.ok (ERes.val x, st)
        | Value.float _ => Except.ok (ERes.val x, st)
        | Value.str _ => Except.ok (ERes.val x, st)
        | Value.lam _ _ _ _ => Except.ok (ERes.val x, st)
        | Value.nil => Except.ok (ERes.val x, st)
        | Value.sym s =>
            match env_lookup st env s with
            | none => Except.error XErr.unknownVar
            | some v => Except.ok (ERes.val v, st)
        | Value.func _ => Except.error XErr.unknownEval
        | Value.pair hd tl =>
            let opn : Option String :=
              match hd with
              | Value.sym s => some s
              | _ => none
            if opn = some "IF" then
              match atIndex x 1, atIndex x 2, atIndex x 3 with
              | some p, some c, some a =>
                  match expectVal (evalT prims fuel (ETask.expr p env) st) with
                  | Except.error e => Except.error e
                  | Except.ok (pv, st1) =>
                      match lisp_int pv with
                      | none => Except.error XErr.ub
                      | some n =>
                          if n ≠ 0 then evalT prims fuel (ETask.expr c env) st1
                          else evalT prims fuel (ETask.expr a env) st1
              | _, _, _ => Except.error XErr.ub
            else if opn = some "BEGIN" then
              if tl = Value.nil then Except.ok (ERes.val Value.nil, st)
              else evalT prims fuel (ETask.seq tl env) st
            else if opn = some "QUOTE" then
              match atIndex x 1 with
              | some v => Except.ok (ERes.val v, st)
              | none => Except.error XErr.ub
            else if opn = some "DEFINE" then
              match atIndex x 1, atIndex x 2 with
              | some symv, some e2 =>
                  match expectVal (evalT prims fuel (ETask.expr e2 env) st) with
                  | Except.error e => Except.error e
                  | Except.ok (v, st1) =>
                      match symv with
                      | Value.sym s =>
                          match env_define st1 env s v with
                          | some st2 => Except.ok (ERes.val Value.nil, st2)
                          | none => Except.error XErr.ub
                      | _ => Except.error XErr.ub
              | _, _ => Except.error XErr.ub
            else if opn = some "SET!" then
              match atIndex x 1, atIndex x 2 with
              | some symv, some e2 =>
                  match expectVal (evalT prims fuel (ETask.expr e2 env) st) with
                  | Except.error e => Except.error e
                  | Except.ok (v, st1) =>
                      match symv with
                      | Value.sym s =>
                          match env_set st1 env s v with
                          | some st2 => Except.ok (ERes.val Value.nil, st2)
                          | none => Except.error XErr.ub
                      | _ => Except.error XErr.ub
              | _, _ => Except.error XErr.ub
            else if opn = some "LAMBDA" then
              match atIndex x 1, atIndex x 2 with
              | some av, some bv =>
                  Except.ok (ERes.val (Value.lam st.counter av bv env),
                    { st with counter := st.counter + 1 })
              | _, _ => Except.error XErr.ub
            else
              match expectVal (evalT prims fuel (ETask.expr hd env) st) with
              | Except.error e => Except.error e
              | Except.ok (op, st1) =>
                  match evalT prims fuel (ETask.args tl env []) st1 with
                  | Except.error e => Except.error e
                  | Except.ok (ERes.vals argv, st2) =>
                      match op with
                      | Value.lam _ largs lbody lenv =>
                          match bind_args largs argv [] with
                          | none => Except.error XErr.ub
                          | some fr =>
                              evalT prims fuel
                                (ETask.expr lbody (st2.frames.length :: lenv))
                                { st2 with frames := st2.frames ++ [fr] }
                      | Value.func fid =>
                          match prims fid argv with
                          | Except.error e => Except.error e
                          | Except.ok r => Except.ok (ERes.val r, st2)
                      | _ => Except.error XErr.badOp
                  | Except.ok (ERes.val _, _) => Except.error XErr.ub
  | fuel + 1, ETask.seq it env, st =>
      match it with
      | Value.pair e rest =>
          if rest = Value.nil then evalT prims fuel (ETask.expr e env) st
          else
            match expectVal (evalT prims fuel (ETask.expr e env) st) with
            | Except.error er => Except.error er
            | Except.ok (_, st1) => evalT prims fuel (ETask.seq rest env) st1
      | _ => Except.error XErr.ub
  | fuel + 1, ETask.args it env acc, st =>
      match it with
      | Value.nil => Except.ok (ERes.vals acc.reverse, st)
      | Value.pair e rest =>
          match expectVal (evalT prims fuel (ETask.expr e env) st) with
          | Except.error er => Except.error er
          | Except.ok (v, st1) => evalT prims fuel (ETask.args rest env (v :: acc)) st1
      | _ => Except.error XErr.ub

/-- lisp_eval's view: evaluate an expression to a value and the updated
context. -/
def evalF (prims : Nat → List Value → Except XErr Value) (fuel : Nat) (x : Value)
    (env : Env) (st : Ctx) : Except XErr (Value × Ctx) :=
  expectVal (evalT prims fuel (ETask.expr x env) st)

/-- A host primitive table with no primitives (every call errors). -/
def prims0 : Nat → List Value → Except XErr Value :=
  fun _ _ => Except.error XErr.badArg

/- ## Section 7: the macro expander (expand_r, lisp.c:999-1309) -/

/-- The COND-clause checks (lisp.c:1117-1119 and 1092-1095): a clause must
be a pair of length exactly 2; lisp_length of an improper clause walks
lisp_cdr off a non-pair (undefined). -/
def clause2 : Value → Except XErr (Value × Value)
  | Value.pair p (Value.pair e Value.nil) => Except.ok (p, e)
  | Value.pair _ rest =>
      Except.error
        (match lengthOpt rest with
         | none => XErr.ub
         | some _ => XErr.badCond)
  | _ => Except.error XErr.badCond

/-- The recursion modes of expand_r: a single form; the element loop of
the generic case (lisp.c:1299-1306); the COND clause loop (lisp.c:1112-1131,
clauses already reversed); the AND/OR predicate loop (lisp.c:1157-1170 and
1195-1208); the LET binding loop (lisp.c:1224-1236). -/
inductive XT where
  | one (v : Value)
  | many (it : Value) (acc : List Value)
  | condT (cs : List Value) (outer : Value)
  | boolT (isAnd : Bool) (ps : List Value) (outer : Value)
  | letT (bs : Value) (accV accE : List Value) (body : Value)

/-- expand_r (lisp.c:999-1309).  Fuel bounds the recursion; any
terminating C run is reproduced with enough fuel.  The in-place mutations
of the C code (set-car in the generic loop, the set-cdr splices of DEFINE,
LAMBDA and LET) are rendered as the trees they produce.  In the
function-form DEFINE (lisp.c:1030-1053) the element after the lambda is
the original body list, whose cells have been expanded in place by the
nested expansion of the lambda body exactly when that body (read as a
form) takes the quote or generic dispatch; this embedding uses the
expanded body-as-form in that trailing position, which matches the C
cells for such bodies (and claims are stated so as not to depend on the
trailing elements of a function-form define).  lisp_length on an improper
list, car/cdr of a non-pair, and set-cdr on the null pair are undefined
(XErr.ub). -/
def expandT : Nat → XT → Except XErr Value
  | 0, _ => Except.error XErr.outOfFuel
  | fuel + 1, XT.one x =>
      match x with
      | Value.pair hd tl =>
          let opn : Option String :=
            match hd with
            | Value.sym s => some s
            | _ => none
          if opn = some "QUOTE" then
            match lengthOpt x with
            | none => Except.error XErr.ub
            | some n => if n ≠ 2 then Except.error XErr.badQuote else Except.ok x
          else if opn = some "DEFINE" then
            match lengthOpt x with
            | none => Except.error XErr.ub
            | some n =>
              if n < 3 then Except.error XErr.badDefine
              else
                match tl with
                | Value.pair sig rest2 =>
                    match sig with
                    | Value.pair name sigRest =>
                        match name with
                        | Value.sym _ =>
                            if sigRest = Value.nil then Except.error XErr.ub
                            else
                              match expandT fuel (XT.one (Value.pair (Value.sym "LAMBDA")
                                  (Value.pair sigRest rest2))) with
                              | Except.error e => Except.error e
                              | Except.ok elamb =>
                                  match expandT fuel (XT.one rest2) with
                                  | Except.error e => Except.error e
                                  | Except.ok trailing =>
                                      Except.ok (Value.pair hd
                                        (make_listv name [elamb, trailing]))
                        | _ => Except.error XErr.badDefine
                    | Value.sym _ =>
                        match expandT fuel (XT.one rest2) with
                        | Except.error e => Except.error e
                        | Except.ok r => Except.ok (Value.pair hd (Value.pair sig r))
                    | _ => Except.error XErr.badDefine
                | _ => Except.error XErr.ub
          else if opn = some "SET!" then
            match lengthOpt x with
            | none => Except.error XErr.ub
            | some n =>
              if n ≠ 3 then Except.error XErr.badSet
              else
                match atIndex x 1 with
                | some var =>
                    match var with
                    | Value.sym _ =>
                        match atIndex x 2 with
                        | some e2 =>
                            match expandT fuel (XT.one e2) with
                            | Except.error e => Except.error e
                            | Except.ok r => Except.ok (make_listv hd [var, r])
                        | none => Except.error XErr.ub
                    | _ => Except.error XErr.badSet
                | none => Except.error XErr.ub
          else if opn = some "COND" then
            match (spine tl).1.reverse with
            | [] => Except.error XErr.ub
            | c0 :: cs =>
                match clause2 c0 with
                | Except.error e => Except.error e
                | Except.ok (p, e) =>
                    match p with
                    | Value.sym s =>
                        if s = "ELSE" then
                          match expandT fuel (XT.one e) with
                          | Except.error er => Except.error er
                          | Except.ok outer => expandT fuel (XT.condT cs outer)
                        else expandT fuel (XT.condT (c0 :: cs) Value.nil)
                    | _ => expandT fuel (XT.condT (c0 :: cs) Value.nil)
          else if opn = some "AND" then
            match lengthOpt x with
            | none => Except.error XErr.ub
            | some n =>
              if n < 2 then Except.error XErr.badAnd
              else
                match (spine tl).1.reverse with
                | [] => Except.error XErr.ub
                | p0 :: ps =>
                    match expandT fuel (XT.one p0) with
                    | Except.error e => Except.error e
                    | Except.ok p0r =>
                        expandT fuel (XT.boolT true ps
                          (make_listv (Value.sym "IF") [p0r, Value.int 1, Value.int 0]))
          else if opn = some "OR" then
            match lengthOpt x with
            | none => Except.error XErr.ub
            | some n =>
              if n < 2 then Except.error XErr.badOr
              else
                match (spine tl).1.reverse with
                | [] => Except.error XErr.ub
                | p0 :: ps =>
                    match expandT fuel (XT.one p0) with
                    | Except.error e => Except.error e
                    | Except.ok p0r =>
                        expandT fuel (XT.boolT false ps
                          (make_listv (Value.sym "IF") [p0r, Value.int 1, Value.int 0]))
          else if opn = some "LET" then
            match tl with
            | Value.pair pairsV rest2 =>
                match pairsV with
                | Value.pair _ _ => expandT fuel (XT.letT pairsV [] [] rest2)
                | _ => Except.error XErr.badLet
            | _ => Except.error XErr.ub
          else if opn = some "LAMBDA" then
            match lengthOpt x with
            | none => Except.error XErr.ub
            | some n =>
              if n > 3 then
                match tl with
                | Value.pair vars rest2 =>
                    match expandT fuel (XT.one rest2) with
                    | Except.error e => Except.error e
                    | Except.ok r =>
                        match vars with
                        | Value.pair _ _ =>
                            Except.ok (make_listv hd
                              [vars, Value.pair (Value.sym "BEGIN") r])
                        | _ => Except.error XErr.badLambda
                | _ => Except.error XErr.ub
              else
                match tl with
                | Value.pair a rest2 =>
                    match expandT fuel (XT.one rest2) with
                    | Except.error e => Except.error e
                    | Except.ok r => Except.ok (Value.pair hd (Value.pair a r))
                | _ => Except.error XErr.ub
          else if opn = some "ASSERT" then
            match tl with
            | Value.pair stmt _ =>
                match expandT fuel (XT.one stmt) with
                | Except.error e => Except.error e
                | Except.ok s2 =>
                    Except.ok (make_listv hd
                      [s2, make_listv (Value.sym "QUOTE") [stmt]])
            | _ => Except.error XErr.ub
          else expandT fuel (XT.many x [])
      | _ => Except.ok x
  | fuel + 1, XT.many it acc =>
      match it with
      | Value.nil => Except.ok (consList acc.reverse Value.nil)
      | Value.pair a rest =>
          match expandT fuel (XT.one a) with
          | Except.error e => Except.error e
          | Except.ok r => expandT fuel (XT.many rest (r :: acc))
      | _ => Except.error XErr.ub
  | fuel + 1, XT.condT cs outer =>
      match cs with
      | [] => Except.ok outer
      | c :: rest =>
          match clause2 c with
          | Except.error e => Except.error e
          | Except.ok (p, e) =>
              match expandT fuel (XT.one p) with
              | Except.error er => Except.error er
              | Except.ok pr =>
                  match expandT fuel (XT.one e) with
                  | Except.error er => Except.error er
                  | Except.ok er2 =>
                      expandT fuel (XT.condT rest
                        (make_listv (Value.sym "IF") [pr, er2, outer]))
  | fuel + 1, XT.boolT isAnd ps outer =>
      match ps with
      | [] => Except.ok outer
      | p :: rest =>
          match expandT fuel (XT.one p) with
          | Except.error e => Except.error e
          | Except.ok pr =>
              expandT fuel (XT.boolT isAnd rest
                (if isAnd then make_listv (Value.sym "IF") [pr, outer, Value.int 0]
                 else make_listv (Value.sym "IF") [pr, Value.int 1, outer]))
  | fuel + 1, XT.letT bs accV accE body =>
      match bs with
      | Value.nil =>
          match expandT fuel (XT.one (Value.pair (Value.sym "LAMBDA")
              (Value.pair (consList accV.reverse Value.nil) body))) with
          | Except.error e => Except.error e
          | Except.ok elamb =>
              Except.ok (Value.pair elamb (consList accE.reverse Value.nil))
      | Value.pair b rest =>
          match b with
          | Value.pair var vrest =>
              match var with
              | Value.sym _ =>
                  match vrest with
                  | Value.pair ve _ =>
                      match expandT fuel (XT.one ve) with
                      | Except.error e => Except.error e
                      | Except.ok r =>
                          expandT fuel (XT.letT rest (var :: accV) (r :: accE) body)
                  | _ => Except.error XErr.ub
              | _ => Except.error XErr.badLet
          | _ => Except.error XErr.badLet
      | _ => Except.error XErr.ub

/-- lisp_expand's view: expand one form. -/
def expandF (fuel : Nat) (x : Value) : Except XErr Value :=
  expandT fuel (XT.one x)

/-- The head symbol of a form, if any. -/
def headSym : Value → Option String
  | Value.pair (Value.sym s) _ => some s
  | _ => none

/-- The keywords the expander lowers away entirely (spec section 4.7). -/
def excl (s : String) : Bool :=
  s == "COND" || s == "AND" || s == "OR" || s == "LET"

/-- The symbols that, left as bare data, can flow into operator position
of an expansion result (the lowered keywords plus DEFINE and QUOTE). -/
def exclD (s : String) : Bool :=
  excl s || s == "DEFINE" || s == "QUOTE"

/-- A value that is not a bare lowered/structural keyword symbol. -/
def notBadSym : Value → Bool
  | Value.sym s => !(exclD s)
  | _ => true

/-- The output invariant of the expander (the amended C8 property): no
lowered keyword in operator position, excluding quoted data and excluding
the second and later positions after the lambda of a define residue:
a define whose first argument position holds a pair is a function-form
define occurrence and is itself a violation.  Mode true checks each
element of a spine; mode false checks a form. -/
def okT : Bool → Value → Bool
  | true, Value.pair a d => okT false a && okT true d
  | true, _ => true
  | false, Value.pair (Value.sym s) (Value.pair s1 (Value.pair e2 rest2)) =>
      if s = "QUOTE" then true
      else if s = "DEFINE" then
        (match s1 with
         | Value.pair _ _ => false
         | _ => true) && okT false e2
      else !(excl s) && okT false s1 && okT false e2 && okT true rest2
  | false, Value.pair (Value.sym s) (Value.pair s1 _) =>
      if s = "QUOTE" then true
      else if s = "DEFINE" then
        (match s1 with
         | Value.pair _ _ => false
         | _ => true)
      else !(excl s) && okT false s1
  | false, Value.pair (Value.sym s) _ =>
      if s = "QUOTE" then true
      else if s = "DEFINE" then true
      else !(excl s)
  | false, Value.pair a d => okT false a && okT true d
  | false, _ => true

/-- Heads a body list (expanded as a form by the C splices) may not have
for the output invariant to survive the splice: a bare QUOTE head would
put quoted data in spine position, a COND head can return the raw
else-expansion, and a function-form DEFINE head has a model-idealized
trailing.  Non-recursive head test used by wfC. -/
def bodyHeadOk : Value → Bool
  | Value.pair (Value.sym "QUOTE") _ => false
  | Value.pair (Value.sym "COND") _ => false
  | Value.pair (Value.sym "DEFINE") (Value.pair (Value.pair _ _) _) => false
  | _ => true

/-- A proper list of plain non-keyword symbols: the lambda formal lists
the amended claim covers (they are copied verbatim into the output). -/
def symsOnly : Value → Bool
  | Value.nil => true
  | Value.pair (Value.sym s) rest => !(exclD s) && symsOnly rest
  | _ => false

/-- Input well-formedness for the amended C8 claim.  Mode 0 checks a
form: the lowered keywords (and DEFINE/QUOTE) appear only in operator
position, never as bare value expressions; lambda and function-define
formal lists are plain non-keyword symbols; body lists of lambdas,
defines and lets are themselves well-formed read as forms (the C splices
expand them as forms) and avoid the heads of bodyHeadOk.  Mode 1 checks
each element of a spine.  Mode 2 checks a LET binding list and mode 5 one
binding: exactly (var expr) with a non-keyword symbol variable.  Mode 3
checks a COND clause list and mode 4 one clause: exactly (pred expr). -/
def wfC : Nat → Value → Bool
  | 1, Value.pair a d => wfC 0 a && wfC 1 d
  | 1, _ => true
  | 2, Value.nil => true
  | 2, Value.pair b rest => wfC 5 b && wfC 2 rest
  | 2, _ => false
  | 3, Value.nil => true
  | 3, Value.pair c rest => wfC 4 c && wfC 3 rest
  | 3, _ => false
  | 4, Value.pair (Value.sym _) (Value.pair e Value.nil) => wfC 0 e
  | 4, Value.pair p (Value.pair e Value.nil) => wfC 0 p && wfC 0 e
  | 4, _ => false
  | 5, Value.pair (Value.sym vs) (Value.pair e2 Value.nil) => !(exclD vs) && wfC 0 e2
  | 5, _ => false
  | 0, Value.sym s => !(exclD s)
  | 0, Value.pair (Value.sym s) (Value.pair t1 t2) =>
      if s = "QUOTE" then true
      else if s = "LAMBDA" then symsOnly t1 && (bodyHeadOk t2 && wfC 0 t2)
      else if s = "DEFINE" then
        (match t1 with
         | Value.pair _ sigRest => symsOnly sigRest
         | Value.sym s2 => !(exclD s2)
         | _ => true) && (bodyHeadOk t2 && wfC 0 t2)
      else if s = "COND" then wfC 4 t1 && wfC 3 t2
      else if s = "AND" then wfC 0 t1 && wfC 1 t2
      else if s = "OR" then wfC 0 t1 && wfC 1 t2
      else if s = "LET" then wfC 2 t1 && (bodyHeadOk t2 && wfC 0 t2)
      else wfC 0 t1 && wfC 1 t2
  | 0, Value.pair (Value.sym _) _ => true
  | 0, Value.pair a d => wfC 0 a && wfC 1 d
  | 0, _ => true
  | _, _ => true

/-- The per-clause content of wfC mode 3 (after the reversal of the
clause list): a clause is exactly (pred expr) with well-formed parts. -/
def clauseOk (c : Value) : Bool := wfC 4 c

/-- The per-binding content of wfC mode 2: a binding is exactly
(var expr) with a non-keyword symbol variable. -/
def bindOk (b : Value) : Bool := wfC 5 b

/-- Discriminator for the pair constructor. -/
def isPairB : Value → Bool
  | Value.pair _ _ => true
  | _ => false

/-- Soundness statement for expanding one well-formed expression: the
result passes the output checker and is not a bare keyword symbol. -/
def POne (fuel : Nat) : Prop :=
  ∀ x r, wfC 0 x = true → expandT fuel (XT.one x) = Except.ok r →
    okT false r = true ∧ notBadSym r = true

/-- Soundness statement for expanding a body list as a form (the C
splices): additionally every element of the result passes the checker. -/
def PBody (fuel : Nat) : Prop :=
  ∀ x r, bodyHeadOk x = true → wfC 0 x = true →
    expandT fuel (XT.one x) = Except.ok r →
    okT false r = true ∧ notBadSym r = true ∧ okT true r = true

/-- Soundness statement for the generic element loop. -/
def PMany (fuel : Nat) : Prop :=
  ∀ it acc r, wfC 1 it = true →
    (∀ v ∈ acc, okT false v = true ∧ notBadSym v = true) →
    expandT fuel (XT.many it acc) = Except.ok r →
    okT false r = true ∧ notBadSym r = true ∧ okT true r = true

/-- Soundness statement for the COND clause loop. -/
def PCond (fuel : Nat) : Prop :=
  ∀ cs outer r, (∀ c ∈ cs, clauseOk c = true) →
    okT false outer = true → notBadSym outer = true →
    expandT fuel (XT.condT cs outer) = Except.ok r →
    okT false r = true ∧ notBadSym r = true

/-- Soundness statement for the AND/OR predicate loop. -/
def PBool (fuel : Nat) : Prop :=
  ∀ isAnd ps outer r, (∀ p ∈ ps, wfC 0 p = true) →
    okT false outer = true → okT true outer = true → notBadSym outer = true →
    expandT fuel (XT.boolT isAnd ps outer) = Except.ok r →
    okT false r = true ∧ notBadSym r = true ∧ okT true r = true

/-- Soundness statement for the LET binding loop. -/
def PLet (fuel : Nat) : Prop :=
  ∀ bs accV accE body r, wfC 2 bs = true →
    (∀ v ∈ accV, ∃ s, v = Value.sym s ∧ exclD s = false) →
    (∀ v ∈ accE, okT false v = true) →
    bodyHeadOk body = true → wfC 0 body = true →
    expandT fuel (XT.letT bs accV accE body) = Except.ok r →
    okT false r = true ∧ notBadSym r = true ∧ okT true r = true

end LispSpec

namespace LispSpec

/-- C1: the claim says the scavenge scans exactly the allocated blocks of
each to-space page, stopping when the scan offset reaches the page's fill
level (the write pointer), with no bytes beyond the last allocated block
interpreted as a block.  The code loops `while (offset < page->capacity)`
instead: on a page whose single 24-byte block fills only 24 of 8192 bytes,
the loop also interprets the stale bytes at offsets 24 and 8184 as blocks,
while the claimed scan stops after offset 0. -/
theorem C1_scan_reads_beyond_write_pointer :
    gc_scan_offsets 8 c1Page 8 0 = [0, 24, 8184] ∧
    gc_scan_offsets_claim 8 c1Page 8 0 = [0] ∧
    24 ∈ gc_scan_offsets 8 c1Page 8 0 ∧ ¬ (24 < c1Page.size) := by
  refine ⟨by decide, by decide, by decide, by decide⟩

/-- C2: the claim says that when a request does not fit in the current page
but fits in an already-existing next page, the next page is reused, and a
fresh page is created only when no existing next page fits.  The code's
test is inverted (and compares against the current page's capacity):
with the current page at 8190/8192 and an empty next page of capacity 8192,
a 16-byte request creates a fresh page even though the next page fits; with
the next page at 8189/8192, where the request does not fit, the code reuses
it. -/
theorem C2_heap_alloc_next_page_test_inverted :
    heap_alloc_choice ⟨8190, 8192⟩ (some ⟨0, 8192⟩) 16 = AllocChoice.freshPage 8192 ∧
    heap_alloc_choice_claim ⟨8190, 8192⟩ (some ⟨0, 8192⟩) 16 = AllocChoice.reuseNext ∧
    heap_alloc_choice ⟨8190, 8192⟩ (some ⟨8189, 8192⟩) 16 = AllocChoice.reuseNext ∧
    heap_alloc_choice_claim ⟨8190, 8192⟩ (some ⟨8189, 8192⟩) 16 = AllocChoice.freshPage 8192 := by
  refine ⟨by decide, by decide, by decide, by decide⟩

/-- C4: the claim says a table whose load factor leaves [0.1, 0.75] is
resized to `3*size - 1` with a minimum of 1, so an empty table gets
capacity 1.  For `size = 0` the code computes `(0*3) - 1` in 32-bit
unsigned arithmetic, which is 4294967295, and the `< 1` clamp (which only
ever catches 0) never fires; an empty table of capacity 256 is "resized"
to 4294967295, not 1.  For nonzero sizes the formula behaves as claimed
(size 2 gives 5). -/
theorem C4_empty_table_resize_wraps_to_4294967295 :
    gc_move_table_capacity 0 256 = 4294967295 ∧
    gc_move_table_capacity 0 256 ≠ 1 ∧
    gc_move_table_capacity 2 256 = 5 := by
  refine ⟨by decide, by decide, by decide⟩

/- ### Lemmas about case folding and the interner -/

theorem upChar_upChar (c : Nat) : upChar (upChar c) = upChar c := by
  unfold upChar
  split
  · rw [if_neg]; omega
  · rfl

theorem upChar_downChar (c : Nat) : upChar (downChar c) = upChar c := by
  unfold downChar
  by_cases h : 65 ≤ c ∧ c ≤ 90
  · rw [if_pos h]
    unfold upChar
    rw [if_pos (by omega), if_neg (by omega)]
    omega
  · rw [if_neg h]

theorem findQCongr {α : Type} (l : List α) (p q : α → Bool)
    (h : ∀ x ∈ l, p x = q x) : l.find? p = l.find? q := by
  induction l with
  | nil => rfl
  | cons a as ih =>
      simp only [List.find?]
      rw [h a (List.mem_cons_self a as)]
      cases q a with
      | true => rfl
      | false => exact ih fun x hx => h x (List.mem_cons_of_mem a hx)

theorem strncaseEq_map_right (f : Nat → Nat) (hf : ∀ c, upChar (f c) = upChar c) :
    ∀ (b a : List Nat) (n : Nat), strncaseEq a (b.map f) n = strncaseEq a b n := by
  intro b
  induction b with
  | nil => intro a n; rfl
  | cons c cs ih =>
      intro a n
      rw [List.map_cons]
      cases n with
      | zero => rw [strncaseEq.eq_def, strncaseEq.eq_def]
      | succ m =>
          cases a with
          | nil => rw [strncaseEq.eq_def, strncaseEq.eq_def]
          | cons x xs => simp [strncaseEq, hf, ih]

theorem strncaseEq_of_fold_eq :
    ∀ (a b : List Nat) (n : Nat), a.map upChar = b.map upChar →
      strncaseEq a b n = true := by
  intro a
  induction a with
  | nil =>
      intro b n h
      have : b = [] := by
        cases b with
        | nil => rfl
        | cons _ _ => simp at h
      subst this
      cases n <;> rfl
  | cons x xs ih =>
      intro b n h
      cases b with
      | nil => simp at h
      | cons y ys =>
          simp only [List.map_cons, List.cons.injEq] at h
          cases n with
          | zero => rfl
          | succ m => simp [strncaseEq, h.1, ih ys m h.2]

theorem strncaseEq_true_iff :
    ∀ (a b : List Nat) (n : Nat),
      strncaseEq a b n = true ↔ (a.take n).map upChar = (b.take n).map upChar := by
  intro a
  induction a with
  | nil =>
      intro b n
      cases n with
      | zero => simp [strncaseEq]
      | succ m =>
          cases b with
          | nil => simp [strncaseEq]
          | cons y ys => simp [strncaseEq]
  | cons x xs ih =>
      intro b n
      cases n with
      | zero => simp [strncaseEq]
      | succ m =>
          cases b with
          | nil => simp [strncaseEq]
          | cons y ys =>
              simp only [strncaseEq, Bool.and_eq_true, beq_iff_eq,
                List.take_succ_cons, List.map_cons, List.cons.injEq]
              rw [ih ys m]

theorem hash_string_map (f : Nat → Nat) (hf : ∀ c, upChar (f c) = upChar c)
    (s : List Nat) : hash_string (s.map f) = hash_string s := by
  have hfun :
      (fun (p : Nat × Nat) c =>
          let s1 := (p.1 + upChar (f c)) % 65521
          (s1, (p.2 + s1) % 65521)) =
      (fun (p : Nat × Nat) c =>
          let s1 := (p.1 + upChar c) % 65521
          (s1, (p.2 + s1) % 65521)) := by
    funext p c
    simp [hf]
  rw [hash_string, hash_string, List.foldl_map]
  rw [hfun]

theorem mapUpCharIdem (s : List Nat) : (s.map upChar).map upChar = s.map upChar := by
  induction s with
  | nil => rfl
  | cons c cs ih => simp [upChar_upChar, ih]

theorem getDSetSelf {α : Type} (d : α) :
    ∀ (l : List α) (i : Nat) (x : α), i < l.length → (l.set i x).getD i d = x := by
  intro l
  induction l with
  | nil => intro i x h; simp at h
  | cons a as ih =>
      intro i x h
      cases i with
      | zero => rfl
      | succ j => exact ih j x (by simpa using h)

theorem getDConcatLen {α : Type} (d : α) :
    ∀ (l : List α) (x : α), (l ++ [x]).getD l.length d = x := by
  intro l
  induction l with
  | nil => intro x; rfl
  | cons a as ih => intro x; exact ih x

theorem getDMem {α : Type} (d : α) :
    ∀ (l : List α) (i : Nat), i < l.length → l.getD i d ∈ l := by
  intro l
  induction l with
  | nil => intro i h; simp at h
  | cons a as ih =>
      intro i h
      cases i with
      | zero => exact List.mem_cons_self a as
      | succ j => exact List.mem_cons_of_mem a (ih j (by simpa using h))

theorem table_get_string_map (t : SymTab) (s : List Nat) (f : Nat → Nat)
    (hf : ∀ c, upChar (f c) = upChar c) (h : Nat) :
    table_get_string t (s.map f) h = table_get_string t s h := by
  unfold table_get_string
  exact findQCongr _ _ _
    (fun id _ => strncaseEq_map_right f hf s (t.names.getD id []) 2048)

theorem lisp_make_symbol_hit (t : SymTab) (s : List Nat) (id : Nat)
    (h : table_get_string t s (hash_string s) = some id) :
    lisp_make_symbol s t = (id, t) := by
  simp [lisp_make_symbol, h]

theorem lisp_make_symbol_miss (t : SymTab) (s : List Nat)
    (h : table_get_string t s (hash_string s) = none) :
    lisp_make_symbol s t =
      (t.names.length,
        { t with
          names := t.names ++ [s.map upChar]
          buckets := t.buckets.set (hash_string s % t.capacity)
            (t.names.length :: t.buckets.getD (hash_string s % t.capacity) []) }) := by
  simp [lisp_make_symbol, h]

theorem intern_fold_invariant (t0 : SymTab) (s : List Nat) (f : Nat → Nat)
    (hf : ∀ c, upChar (f c) = upChar c) (hwf : SymTabWF t0) :
    lisp_make_symbol (s.map f) (lisp_make_symbol s t0).2 = lisp_make_symbol s t0 := by
  obtain ⟨hlen, hpos, hids⟩ := hwf
  have hh : hash_string (s.map f) = hash_string s := hash_string_map f hf s
  cases hlk : table_get_string t0 s (hash_string s) with
  | some id =>
      rw [lisp_make_symbol_hit t0 s id hlk]
      apply lisp_make_symbol_hit
      rw [hh, table_get_string_map t0 s f hf]
      exact hlk
  | none =>
      rw [lisp_make_symbol_miss t0 s hlk]
      apply lisp_make_symbol_hit
      rw [hh, table_get_string_map _ s f hf]
      unfold table_get_string
      have hidx : hash_string s % t0.capacity < t0.buckets.length := by
        rw [hlen]; exact Nat.mod_lt _ hpos
      simp only []
      rw [getDSetSelf [] t0.buckets _ _ hidx]
      apply List.find?_cons_of_pos
      rw [getDConcatLen]
      exact strncaseEq_of_fold_eq _ _ _ (mapUpCharIdem s)

theorem intern_result_name_matches (t0 : SymTab) (s : List Nat) (hwf : SymTabWF t0) :
    strncaseEq ((lisp_make_symbol s t0).2.names.getD (lisp_make_symbol s t0).1 []) s
        2048 = true ∧
      (lisp_make_symbol s t0).1 < (lisp_make_symbol s t0).2.names.length := by
  obtain ⟨hlen, hpos, hids⟩ := hwf
  cases hlk : table_get_string t0 s (hash_string s) with
  | some id =>
      rw [lisp_make_symbol_hit t0 s id hlk]
      unfold table_get_string at hlk
      have hpred := List.find?_some hlk
      refine ⟨hpred, ?_⟩
      have hmem : id ∈ t0.buckets.getD (hash_string s % t0.capacity) [] :=
        List.mem_of_find?_eq_some hlk
      have hidx : hash_string s % t0.capacity < t0.buckets.length := by
        rw [hlen]; exact Nat.mod_lt _ hpos
      exact hids _ (getDMem [] t0.buckets _ hidx) id hmem
  | none =>
      rw [lisp_make_symbol_miss t0 s hlk]
      constructor
      · rw [getDConcatLen]
        exact strncaseEq_of_fold_eq _ _ _ (mapUpCharIdem s)
      · simp

theorem intern_distinct_blocks (t0 : SymTab) (s s2 : List Nat) (hwf : SymTabWF t0)
    (hne : (s.take 2048).map upChar ≠ (s2.take 2048).map upChar) :
    (lisp_make_symbol s2 (lisp_make_symbol s t0).2).1 ≠ (lisp_make_symbol s t0).1 := by
  obtain ⟨hname, hlt⟩ := intern_result_name_matches t0 s hwf
  cases hlk2 : table_get_string (lisp_make_symbol s t0).2 s2 (hash_string s2) with
  | some id2 =>
      rw [lisp_make_symbol_hit _ s2 id2 hlk2]
      unfold table_get_string at hlk2
      have hpred0 := List.find?_some hlk2
      have hpred2 :
          strncaseEq ((lisp_make_symbol s t0).2.names.getD id2 []) s2 2048 = true :=
        hpred0
      intro heq
      rw [show id2 = (lisp_make_symbol s t0).1 from heq] at hpred2
      rw [strncaseEq_true_iff] at hname hpred2
      exact hne (hname.symm.trans hpred2)
  | none =>
      rw [lisp_make_symbol_miss _ s2 hlk2]
      intro heq
      rw [show ((lisp_make_symbol s t0).2.names.length,
            ((lisp_make_symbol s t0).2.names.length : Nat)).1 =
          (lisp_make_symbol s t0).2.names.length from rfl] at heq
      omega

/-- C6 (amended): interning a name, its uppercase folding and its lowercase
folding from any well-formed interner state returns the same symbol block
and leaves the table unchanged after the first intern; a freshly interned
name is stored as its uppercase folding; and two names interned in
sequence yield distinct blocks provided their uppercase foldings differ
within the first 2048 bytes (the `strncasecmp(..., 2048)` bound in
table_get_string makes longer names indistinguishable past that point,
which is what the counterexample exploits). -/
theorem C6_intern_case_folded_identity (t0 : SymTab) (s s2 : List Nat)
    (hwf : SymTabWF t0) :
    lisp_make_symbol (s.map upChar) (lisp_make_symbol s t0).2 = lisp_make_symbol s t0 ∧
    lisp_make_symbol (s.map downChar) (lisp_make_symbol s t0).2 = lisp_make_symbol s t0 ∧
    (table_get_string t0 s (hash_string s) = none →
      (lisp_make_symbol s t0).2.names.getD (lisp_make_symbol s t0).1 [] = s.map upChar) ∧
    ((s.take 2048).map upChar ≠ (s2.take 2048).map upChar →
      (lisp_make_symbol s2 (lisp_make_symbol s t0).2).1 ≠ (lisp_make_symbol s t0).1) := by
  refine ⟨intern_fold_invariant t0 s upChar upChar_upChar hwf,
    intern_fold_invariant t0 s downChar upChar_downChar hwf, ?_, ?_⟩
  · intro hlk
    rw [lisp_make_symbol_miss t0 s hlk]
    exact getDConcatLen [] t0.names (s.map upChar)
  · exact intern_distinct_blocks t0 s s2 hwf

/-- Witness for C6's amended theorem at a concrete interner state and
concrete names. -/
theorem C6_intern_case_folded_identity_witness :
    lisp_make_symbol ([66, 97].map upChar) (lisp_make_symbol [66, 97] emptySymTab).2 =
        lisp_make_symbol [66, 97] emptySymTab ∧
    lisp_make_symbol ([66, 97].map downChar) (lisp_make_symbol [66, 97] emptySymTab).2 =
        lisp_make_symbol [66, 97] emptySymTab ∧
    (table_get_string emptySymTab [66, 97] (hash_string [66, 97]) = none →
      (lisp_make_symbol [66, 97] emptySymTab).2.names.getD
          (lisp_make_symbol [66, 97] emptySymTab).1 [] = [66, 97].map upChar) ∧
    (([66, 97].take 2048).map upChar ≠ (([67] : List Nat).take 2048).map upChar →
      (lisp_make_symbol [67] (lisp_make_symbol [66, 97] emptySymTab).2).1 ≠
        (lisp_make_symbol [66, 97] emptySymTab).1) :=
  C6_intern_case_folded_identity emptySymTab [66, 97] [67] (by
    refine ⟨by decide, by decide, ?_⟩
    intro b hb id hid
    simp [emptySymTab] at hb
    subst hb
    simp at hid)

theorem strncaseEq_append_prefix :
    ∀ (a u v : List Nat) (n : Nat), n ≤ a.length →
      strncaseEq (a ++ u) (a ++ v) n = true := by
  intro a
  induction a with
  | nil =>
      intro u v n h
      have hn : n = 0 := Nat.le_zero.mp (by simpa using h)
      subst hn
      rw [strncaseEq.eq_def]
  | cons c cs ih =>
      intro u v n h
      cases n with
      | zero => rw [strncaseEq.eq_def]
      | succ m =>
          simp only [List.cons_append, strncaseEq, beq_self_eq_true, Bool.true_and]
          exact ih u v m (by simpa using h)

theorem getDReplicate {α : Type} (x : α) :
    ∀ (n i : Nat), (List.replicate n x).getD i x = x := by
  intro n
  induction n with
  | zero => intro i; cases i <;> rfl
  | succ m ih =>
      intro i
      cases i with
      | zero => rfl
      | succ j => exact ih j

theorem c6name1_fold_fixed : c6name1.map upChar = c6name1 := by
  unfold c6name1 prefA
  rw [List.map_append, List.map_replicate,
    show upChar 65 = 65 from rfl,
    show ([66, 67, 66] : List Nat).map upChar = [66, 67, 66] from rfl]

theorem c6name2_fold_fixed : c6name2.map upChar = c6name2 := by
  unfold c6name2 prefA
  rw [List.map_append, List.map_replicate,
    show upChar 65 = 65 from rfl,
    show ([67, 65, 67] : List Nat).map upChar = [67, 65, 67] from rfl]

theorem c6_hash_collision : hash_string c6name2 = hash_string c6name1 := by
  unfold hash_string c6name1 c6name2
  rw [List.foldl_append, List.foldl_append]
  generalize (List.foldl _ ((1 : Nat), (0 : Nat)) prefA) = P
  obtain ⟨p1, p2⟩ := P
  simp only [List.foldl_cons, List.foldl_nil,
    show upChar 65 = 65 from rfl, show upChar 66 = 66 from rfl,
    show upChar 67 = 67 from rfl, Prod.mk.injEq]
  omega

theorem c6_first_lookup_misses :
    table_get_string emptySymTab c6name1 (hash_string c6name1) = none := by
  unfold table_get_string emptySymTab
  rw [getDReplicate]
  rfl

theorem c6_prefix_matches : strncaseEq (c6name1.map upChar) c6name2 2048 = true := by
  rw [c6name1_fold_fixed]
  unfold c6name1 c6name2
  exact strncaseEq_append_prefix prefA [66, 67, 66] [67, 65, 67] 2048
    (by unfold prefA; rw [List.length_replicate])

/-- If a fresh name `s` is interned and a second name `s2` has the same hash
and is strncasecmp(2048)-equal to the stored folding of `s`, the second
intern returns the block of the first. -/
theorem intern_collision (t0 : SymTab) (s s2 : List Nat) (hwf : SymTabWF t0)
    (hmiss : table_get_string t0 s (hash_string s) = none)
    (hh : hash_string s2 = hash_string s)
    (hpre : strncaseEq (s.map upChar) s2 2048 = true) :
    (lisp_make_symbol s2 (lisp_make_symbol s t0).2).1 = (lisp_make_symbol s t0).1 := by
  obtain ⟨hlen, hpos, hids⟩ := hwf
  rw [lisp_make_symbol_miss t0 s hmiss]
  have hidx : hash_string s % t0.capacity < t0.buckets.length := by
    rw [hlen]; exact Nat.mod_lt _ hpos
  have hlk2 :
      table_get_string
        { t0 with
          names := t0.names ++ [s.map upChar]
          buckets := t0.buckets.set (hash_string s % t0.capacity)
            (t0.names.length :: t0.buckets.getD (hash_string s % t0.capacity) []) }
        s2 (hash_string s2) = some t0.names.length := by
    unfold table_get_string
    rw [hh]
    rw [getDSetSelf [] t0.buckets _ _ hidx]
    apply List.find?_cons_of_pos
    show strncaseEq ((t0.names ++ [s.map upChar]).getD t0.names.length []) s2 2048 = true
    rw [getDConcatLen]
    exact hpre
  rw [lisp_make_symbol_hit _ s2 t0.names.length hlk2]

/-- C6 counterexample: the claim as stated says interning two names that
differ after case folding always returns distinct blocks.  The two
2051-byte names AAA...ABCB and AAA...ACAC (2048 As) have equal Adler-32
hashes and agree in their first 2048 bytes, so `strncasecmp(..., 2048)` in
table_get_string calls them equal: the second intern returns the block of
the first, even though the case-folded names differ. -/
theorem C6_counterexample_long_names_share_block :
    (lisp_make_symbol c6name2 (lisp_make_symbol c6name1 emptySymTab).2).1 =
        (lisp_make_symbol c6name1 emptySymTab).1 ∧
      c6name1.map upChar ≠ c6name2.map upChar := by
  constructor
  · refine intern_collision emptySymTab c6name1 c6name2 ?_ c6_first_lookup_misses
      c6_hash_collision c6_prefix_matches
    refine ⟨by decide, by decide, ?_⟩
    intro b hb id hid
    rw [List.eq_of_mem_replicate (show b ∈ List.replicate 512 ([] : List Nat) from hb)]
      at hid
    simp at hid
  · rw [c6name1_fold_fixed, c6name2_fold_fixed]
    unfold c6name1 c6name2
    intro h
    have h2 := List.append_cancel_left h
    simp at h2

/- ### Lemmas about the cons-cell heap and lisp_append -/

theorem getQSetNe {α : Type} :
    ∀ (l : List α) (i j : Nat) (x : α), i ≠ j → (l.set i x).get? j = l.get? j := by
  intro l
  induction l with
  | nil => intro i j x _; simp
  | cons a as ih =>
      intro i j x hij
      cases i with
      | zero =>
          cases j with
          | zero => exact absurd rfl hij
          | succ m => rfl
      | succ n =>
          cases j with
          | zero => rfl
          | succ m => exact ih n m x (by omega)

theorem getQSetSelf {α : Type} :
    ∀ (l : List α) (i : Nat) (x : α), i < l.length → (l.set i x).get? i = some x := by
  intro l
  induction l with
  | nil => intro i x h; simp at h
  | cons a as ih =>
      intro i x h
      cases i with
      | zero => rfl
      | succ n => exact ih n x (by simpa using h)

theorem getQAppendLt {α : Type} :
    ∀ (l l2 : List α) (i : Nat), i < l.length → (l ++ l2).get? i = l.get? i := by
  intro l
  induction l with
  | nil => intro l2 i h; simp at h
  | cons a as ih =>
      intro l2 i h
      cases i with
      | zero => rfl
      | succ n => exact ih l2 n (by simpa using h)

theorem getQConcat {α : Type} :
    ∀ (l : List α) (x : α), (l ++ [x]).get? l.length = some x := by
  intro l
  induction l with
  | nil => intro x; rfl
  | cons a as ih => intro x; exact ih x

theorem chainB_mono_heap {h h2 : PairHeap} {bound : Nat}
    (hpre : ∀ i, i < bound → h2.get? i = h.get? i) :
    ∀ {v xs t}, ChainB h bound v xs t → ChainB h2 bound v xs t := by
  intro v xs t hc
  induction hc with
  | nil t => exact ChainB.nil t
  | cons a c xs t ha hg _ ih =>
      exact ChainB.cons a c xs t ha ((hpre a ha).trans hg) ih

theorem chainB_mono_bound {h : PairHeap} {b b2 : Nat} (hb : b ≤ b2) :
    ∀ {v xs t}, ChainB h b v xs t → ChainB h b2 v xs t := by
  intro v xs t hc
  induction hc with
  | nil t => exact ChainB.nil t
  | cons a c xs t ha hg _ ih =>
      exact ChainB.cons a c xs t (lt_of_lt_of_le ha hb) hg ih

theorem lval_car_ref (h : PairHeap) (a : Nat) :
    lval_car h (LVal.ref a) = (h.get? a).map Cell.car := rfl

theorem lval_cdr_ref (h : PairHeap) (a : Nat) :
    lval_cdr h (LVal.ref a) = (h.get? a).map Cell.cdr := rfl

theorem lisp_set_cdr_ref (h : PairHeap) (a : Nat) (v : LVal) :
    lisp_set_cdr h (LVal.ref a) v =
      match h.get? a with
      | some c => some (h.set a ⟨c.car, v⟩)
      | none => none := rfl

theorem lisp_append_loop_spec :
    ∀ (xs : List LVal) (fuel : Nat) (l : LVal) (h : PairHeap) (tcar : LVal),
      ChainB h (h.length - 1) l xs LVal.nil →
      xs.length + 1 ≤ fuel →
      1 ≤ h.length →
      h.get? (h.length - 1) = some ⟨tcar, LVal.nil⟩ →
      ∃ h2 lastcar tf,
        lisp_append_loop fuel l (LVal.ref (h.length - 1)) h = some (LVal.ref tf, h2) ∧
        h.length - 1 ≤ tf ∧ tf < h2.length ∧
        h2.get? tf = some ⟨lastcar, LVal.nil⟩ ∧
        (∀ i, i < h.length - 1 → h2.get? i = h.get? i) ∧
        (∀ t, ChainB (h2.set tf ⟨lastcar, t⟩) h2.length
          (LVal.ref (h.length - 1)) (tcar :: xs) t) := by
  intro xs
  induction xs with
  | nil =>
      intro fuel l h tcar hch hfuel hlen hget
      have hl : l = LVal.nil := by cases hch; rfl
      subst hl
      obtain ⟨f, rfl⟩ : ∃ f, fuel = f + 1 := ⟨fuel - 1, by omega⟩
      refine ⟨h, tcar, h.length - 1, by simp [lisp_append_loop], le_refl _, by omega,
        hget, fun i _ => rfl, ?_⟩
      intro t
      refine ChainB.cons _ ⟨tcar, t⟩ [] t (by omega) ?_ (ChainB.nil t)
      exact getQSetSelf h _ _ (by omega)
  | cons x xs ih =>
      intro fuel l h tcar hch hfuel hlen hget
      cases hch with
      | cons a c xs t ha hg hrest =>
          obtain ⟨f, rfl⟩ : ∃ f, fuel = f + 1 := ⟨fuel - 1, by omega⟩
          set h2 : PairHeap :=
            (h ++ [(⟨c.car, LVal.nil⟩ : Cell)]).set (h.length - 1)
              ⟨tcar, LVal.ref h.length⟩ with hh2
          have hh2len : h2.length = h.length + 1 := by
            rw [hh2, List.length_set, List.length_append]; rfl
          have hh2below : ∀ i, i < h.length → i ≠ h.length - 1 →
              h2.get? i = h.get? i := by
            intro i hi hne
            rw [hh2, getQSetNe _ _ _ _ (fun hEq => hne hEq.symm), getQAppendLt _ _ _ hi]
          have hcar : lval_car h (LVal.ref a) = some c.car := by
            rw [lval_car_ref, hg]; rfl
          have hsetc :
              lisp_set_cdr (h ++ [(⟨c.car, LVal.nil⟩ : Cell)]) (LVal.ref (h.length - 1))
                (LVal.ref h.length) = some h2 := by
            rw [lisp_set_cdr_ref, getQAppendLt _ _ _ (by omega), hget, hh2]
          have hcdr : lval_cdr h2 (LVal.ref a) = some c.cdr := by
            rw [lval_cdr_ref, hh2, getQSetNe _ _ _ _ (by omega),
              getQAppendLt _ _ _ (show a < h.length by omega), hg]
            rfl
          have hstep :
              lisp_append_loop (f + 1) (LVal.ref a) (LVal.ref (h.length - 1)) h =
                lisp_append_loop f c.cdr (LVal.ref h.length) h2 := by
            rw [lisp_append_loop]
            rw [if_neg (by simp)]
            rw [hcar]
            simp only [Option.some_bind, lisp_cons]
            rw [hsetc]
            simp only [Option.some_bind]
            rw [hcdr]
            simp only [Option.some_bind]
          have hrest2 : ChainB h2 (h2.length - 1) c.cdr xs LVal.nil := by
            have htr : ChainB h2 (h.length - 1) c.cdr xs LVal.nil :=
              chainB_mono_heap (fun i hi => hh2below i (by omega) (by omega)) hrest
            exact chainB_mono_bound (by omega) htr
          have hget2 : h2.get? (h2.length - 1) = some ⟨c.car, LVal.nil⟩ := by
            rw [hh2len]
            simp only [Nat.add_sub_cancel]
            rw [hh2, getQSetNe _ _ _ _ (by omega)]
            exact getQConcat h _
          obtain ⟨h3, lastcar, tf, heq, htflo, htfhi, hget3, hpres, hchain⟩ :=
            ih f c.cdr h2 c.car hrest2
              (by simp only [List.length_cons] at hfuel; omega) (by omega) hget2
          have htflo2 : h.length ≤ tf := by
            rw [hh2len] at htflo; omega
          refine ⟨h3, lastcar, tf, ?_, by omega, htfhi, hget3, ?_, ?_⟩
          · rw [hstep]
            have hIdx : LVal.ref h.length = LVal.ref (h2.length - 1) := by
              rw [hh2len]
              simp only [Nat.add_sub_cancel]
            rw [hIdx]
            exact heq
          · intro i hi
            have e1 : h3.get? i = h2.get? i := hpres i (by omega)
            rw [e1, hh2below i (by omega) (by omega)]
          · intro t
            refine ChainB.cons (h.length - 1) ⟨tcar, LVal.ref h.length⟩ _ t ?_ ?_ ?_
            · omega
            · rw [getQSetNe _ _ _ _ (by omega)]
              rw [hpres _ (by omega)]
              rw [hh2, getQSetSelf _ _ _ (by rw [List.length_append]; simp; omega)]
            · have hc2 := hchain t
              rw [hh2len] at hc2
              simpa using hc2

/-- C9: lisp_append applied with null as its first argument returns null
and leaves the heap untouched, discarding l2 entirely (the C source
returns `l`, not `l2`, lisp.c:237); applied to a non-empty proper list it
allocates a fresh copy starting at the next free address, whose cars are
those of the original and whose final cdr is l2, and every cell of the
original heap (in particular the original list) is left unmodified. -/
theorem C9_lisp_append_nil_and_fresh_copy :
    (∀ (fuel : Nat) (l2 : LVal) (h : PairHeap),
        lisp_append fuel LVal.nil l2 h = some (LVal.nil, h)) ∧
    (∀ (h : PairHeap) (l l2 x : LVal) (xs : List LVal) (fuel : Nat),
        ChainB h h.length l (x :: xs) LVal.nil →
        xs.length + 1 ≤ fuel →
        ∃ h3, lisp_append fuel l l2 h = some (LVal.ref h.length, h3) ∧
          ChainB h3 h3.length (LVal.ref h.length) (x :: xs) l2 ∧
          ∀ i, i < h.length → h3.get? i = h.get? i) := by
  constructor
  · intro fuel l2 h
    simp [lisp_append]
  · intro h l l2 x xs fuel hch hfuel
    cases hch with
    | cons a c xs t ha hg hrest =>
        have hcar : lval_car h (LVal.ref a) = some c.car := by
          rw [lval_car_ref, hg]; rfl
        have hcdr : lval_cdr (h ++ [(⟨c.car, LVal.nil⟩ : Cell)]) (LVal.ref a) =
            some c.cdr := by
          rw [lval_cdr_ref, getQAppendLt _ _ _ ha, hg]
          rfl
        have h1len : (h ++ [(⟨c.car, LVal.nil⟩ : Cell)] : PairHeap).length =
            h.length + 1 := by
          rw [List.length_append]; rfl
        have hrest1 :
            ChainB (h ++ [(⟨c.car, LVal.nil⟩ : Cell)])
              ((h ++ [(⟨c.car, LVal.nil⟩ : Cell)] : PairHeap).length - 1)
              c.cdr xs LVal.nil := by
          rw [h1len]
          simp only [Nat.add_sub_cancel]
          exact chainB_mono_heap (fun i hi => getQAppendLt _ _ _ hi) hrest
        have hget1 :
            (h ++ [(⟨c.car, LVal.nil⟩ : Cell)] : PairHeap).get?
              ((h ++ [(⟨c.car, LVal.nil⟩ : Cell)] : PairHeap).length - 1) =
              some ⟨c.car, LVal.nil⟩ := by
          rw [h1len]
          simp only [Nat.add_sub_cancel]
          exact getQConcat h _
        obtain ⟨h2, lastcar, tf, heq, htflo, htfhi, hget2, hpres, hchain⟩ :=
          lisp_append_loop_spec xs fuel c.cdr (h ++ [(⟨c.car, LVal.nil⟩ : Cell)]) c.car
            hrest1 hfuel (by rw [h1len]; omega) hget1
        have htflo2 : h.length ≤ tf := by rw [h1len] at htflo; omega
        have hIdx : LVal.ref ((h ++ [(⟨c.car, LVal.nil⟩ : Cell)] : PairHeap).length - 1) =
            LVal.ref h.length := by
          rw [h1len]
          simp only [Nat.add_sub_cancel]
        rw [hIdx] at heq
        refine ⟨h2.set tf ⟨lastcar, l2⟩, ?_, ?_, ?_⟩
        · unfold lisp_append
          rw [if_neg (by simp)]
          rw [hcar]
          simp only [Option.some_bind, lisp_cons]
          rw [hcdr]
          simp only [Option.some_bind]
          rw [heq]
          simp only [Option.some_bind]
          rw [lisp_set_cdr_ref, hget2]
          rfl
        · have hc2 := hchain l2
          rw [h1len] at hc2
          rw [List.length_set]
          simpa using hc2
        · intro i hi
          rw [getQSetNe _ _ _ _ (by omega)]
          rw [hpres i (by rw [h1len]; omega)]
          exact getQAppendLt _ _ _ hi

/-- Witness for C9 at a one-cell heap holding the list (1). -/
theorem C9_lisp_append_witness :
    ChainB [⟨LVal.atom 1, LVal.nil⟩] 1 (LVal.ref 0) [LVal.atom 1] LVal.nil ∧
    (∃ h3, lisp_append 1 (LVal.ref 0) (LVal.atom 9) [⟨LVal.atom 1, LVal.nil⟩] =
        some (LVal.ref 1, h3) ∧
      ChainB h3 h3.length (LVal.ref 1) [LVal.atom 1] (LVal.atom 9) ∧
      ∀ i, i < 1 → h3.get? i = ([⟨LVal.atom 1, LVal.nil⟩] : PairHeap).get? i) := by
  have hch : ChainB [⟨LVal.atom 1, LVal.nil⟩] 1 (LVal.ref 0) [LVal.atom 1] LVal.nil :=
    ChainB.cons 0 ⟨LVal.atom 1, LVal.nil⟩ [] LVal.nil (by omega) rfl (ChainB.nil LVal.nil)
  exact ⟨hch, C9_lisp_append_nil_and_fresh_copy.2 [⟨LVal.atom 1, LVal.nil⟩]
    (LVal.ref 0) (LVal.atom 9) (LVal.atom 1) [] 1 hch (by decide)⟩

/-- C7: if the token stream holds exactly one top-level form, parse
returns it unwrapped; if more tokens follow the first form, parse returns
(BEGIN form₁ form₂ …) with the forms in source order. -/
theorem C7_parse_wraps_multiple_forms_in_begin (fuel : Nat) (ts rest : List Token)
    (v : Value) (vs : List Value)
    (hone : parseT fuel PTask.one ts = Except.ok (v, rest)) :
    (rest = [] → parse fuel ts = Except.ok v) ∧
    (rest ≠ [] → parse_tops fuel rest = Except.ok vs →
      parse fuel ts = Except.ok (mkList (Value.sym "BEGIN" :: v :: vs))) := by
  constructor
  · intro h
    subst h
    simp [parse, hone]
  · intro hne htops
    simp [parse, hone, hne, htops, mkList]

/-- Witness for C7: the two-form stream `1 2` parses to (BEGIN 1 2); the
one-form stream `1` parses to 1. -/
theorem C7_parse_wraps_witness :
    parse 3 [Token.intTok 1, Token.intTok 2] =
        Except.ok (mkList [Value.sym "BEGIN", Value.int 1, Value.int 2]) ∧
      parse 3 [Token.intTok 1] = Except.ok (Value.int 1) :=
  ⟨(C7_parse_wraps_multiple_forms_in_begin 3 [Token.intTok 1, Token.intTok 2]
      [Token.intTok 2] (Value.int 1) [Value.int 2] rfl).2
      (by simp) rfl,
    (C7_parse_wraps_multiple_forms_in_begin 3 [Token.intTok 1] [] (Value.int 1) []
      rfl).1 rfl⟩

/- ### C3: set! of an unbound symbol -/

/-- C3: evaluating (SET! X 1) with X bound in no frame of the environment
does not continue normally: after the diagnostic, lisp_env_set
unconditionally calls lisp_set_cdr on the null pair returned by the failed
lookup (lisp.c:1463-1471 has no early return), a write through an invalid
block pointer — undefined behavior, not a skipped mutation.  Here the
environment is one empty frame. -/
theorem C3_set_of_unbound_symbol_writes_through_null :
    evalF prims0 3 (mkList [Value.sym "SET!", Value.sym "X", Value.int 1]) [0]
      ⟨[[]], 0⟩ = Except.error XErr.ub :=
  rfl

/- ### C10: the IF predicate is coerced with lisp_int -/

/-- ratTrunc of a rational strictly between -1 and 1 is 0 (the C cast of
such a float to int). -/
theorem ratTrunc_eq_zero (q : ℚ) (h1 : -1 < q) (h2 : q < 1) : ratTrunc q = 0 := by
  have hd : (0 : ℚ) < (q.den : ℚ) := by exact_mod_cast q.den_pos
  have hnum2 : (q.num : ℚ) < (q.den : ℚ) := by
    rw [← Rat.num_div_den q] at h2
    exact (div_lt_one hd).mp h2
  have hnum1 : (-1 : ℚ) * (q.den : ℚ) < (q.num : ℚ) := by
    rw [← Rat.num_div_den q] at h1
    exact (lt_div_iff₀ hd).mp h1
  have hu : q.num < (q.den : Int) := by exact_mod_cast hnum2
  have hl : -(q.den : Int) < q.num := by
    rw [neg_one_mul] at hnum1
    exact_mod_cast hnum1
  unfold ratTrunc
  rcases le_or_lt 0 q.num with hpos | hneg
  · exact Int.tdiv_eq_zero_of_lt hpos hu
  · have h3 : (0 : Int) ≤ -q.num := by omega
    have h4 : -q.num < (q.den : Int) := by omega
    calc Int.tdiv q.num (q.den : Int)
        = Int.tdiv (-(-q.num)) (q.den : Int) := by rw [neg_neg]
      _ = -(Int.tdiv (-q.num) (q.den : Int)) := Int.neg_tdiv _ _
      _ = 0 := by rw [Int.tdiv_eq_zero_of_lt h3 h4, neg_zero]

/-- ratTrunc of a rational of magnitude at least 1 is nonzero. -/
theorem ratTrunc_ne_zero (q : ℚ) (h : 1 ≤ |q|) : ¬ ratTrunc q = 0 := by
  have hd : (0 : ℚ) < (q.den : ℚ) := by exact_mod_cast q.den_pos
  have hd0 : (0 : Int) < (q.den : Int) := by exact_mod_cast q.den_pos
  unfold ratTrunc
  rcases le_abs.mp h with h1 | h1
  · have hnum : (1 : ℚ) * (q.den : ℚ) ≤ (q.num : ℚ) := by
      rw [← Rat.num_div_den q] at h1
      exact (le_div_iff₀ hd).mp h1
    have hle : (q.den : Int) ≤ q.num := by
      rw [one_mul] at hnum
      exact_mod_cast hnum
    rw [Int.tdiv_eq_ediv (by omega) (by omega)]
    have hq1 : (1 : Int) ≤ q.num / (q.den : Int) :=
      (Int.le_ediv_iff_mul_le hd0).mpr (by omega)
    omega
  · have h1' : (1 : ℚ) ≤ ((-q).num : ℚ) / ((-q).den : ℚ) := by
      rw [Rat.num_div_den]
      exact h1
    rw [Rat.neg_num, Rat.neg_den] at h1'
    have hnum : (1 : ℚ) * (q.den : ℚ) ≤ ((-q.num : Int) : ℚ) := (le_div_iff₀ hd).mp h1'
    have hle : (q.den : Int) ≤ -q.num := by
      rw [one_mul] at hnum
      exact_mod_cast hnum
    have hstep : Int.tdiv q.num (q.den : Int) = -(Int.tdiv (-q.num) (q.den : Int)) := by
      rw [← Int.neg_tdiv, neg_neg]
    rw [hstep, Int.tdiv_eq_ediv (by omega) (by omega)]
    have hq1 : (1 : Int) ≤ (-q.num) / (q.den : Int) :=
      (Int.le_ediv_iff_mul_le hd0).mpr (by omega)
    omega

/-- One step of eval_r on an IF form (lisp.c:1569-1583): the predicate is
evaluated, coerced with lisp_int, and the consequent or alternative is
evaluated in its place according to the `!= 0` test. -/
theorem evalT_if_step (prims : Nat → List Value → Except XErr Value) (fuel : Nat)
    (p c a : Value) (env : Env) (st st1 : Ctx) (pv : Value) (n : Int)
    (henv : ¬ env = [])
    (hp : evalF prims fuel p env st = Except.ok (pv, st1))
    (hn : lisp_int pv = some n) :
    evalF prims (fuel + 1) (mkList [Value.sym "IF", p, c, a]) env st =
      if n ≠ 0 then evalF prims fuel c env st1 else evalF prims fuel a env st1 := by
  have key : evalT prims (fuel + 1)
      (ETask.expr (mkList [Value.sym "IF", p, c, a]) env) st =
      if env = [] then Except.error XErr.ub
      else
        match expectVal (evalT prims fuel (ETask.expr p env) st) with
        | Except.error e => Except.error e
        | Except.ok (pv, st1) =>
            match lisp_int pv with
            | none => Except.error XErr.ub
            | some n =>
                if n ≠ 0 then evalT prims fuel (ETask.expr c env) st1
                else evalT prims fuel (ETask.expr a env) st1 := by
    conv_lhs => rw [evalT.eq_def]
    rfl
  unfold evalF at hp ⊢
  rw [key, if_neg henv, hp]
  show expectVal
      (match lisp_int pv with
      | none => Except.error XErr.ub
      | some n =>
          if n ≠ 0 then evalT prims fuel (ETask.expr c env) st1
          else evalT prims fuel (ETask.expr a env) st1) = _
  rw [hn]
  show expectVal
      (if n ≠ 0 then evalT prims fuel (ETask.expr c env) st1
      else evalT prims fuel (ETask.expr a env) st1) = _
  rw [apply_ite expectVal]

/-- C10: the IF predicate value is coerced with lisp_int before the zero
test, so a float predicate strictly between -1 and 1 selects the
alternative, while a nonzero integer, or a float of magnitude at least 1,
selects the consequent. -/
theorem C10_if_predicate_truncated_toward_zero :
    (∀ (prims : Nat → List Value → Except XErr Value) (fuel : Nat) (p c a : Value)
        (env : Env) (st st1 : Ctx) (q : ℚ),
        ¬ env = [] →
        evalF prims fuel p env st = Except.ok (Value.float q, st1) →
        -1 < q → q < 1 →
        evalF prims (fuel + 1) (mkList [Value.sym "IF", p, c, a]) env st =
          evalF prims fuel a env st1) ∧
    (∀ (prims : Nat → List Value → Except XErr Value) (fuel : Nat) (p c a : Value)
        (env : Env) (st st1 : Ctx) (n : Int),
        ¬ env = [] →
        evalF prims fuel p env st = Except.ok (Value.int n, st1) →
        ¬ n = 0 →
        evalF prims (fuel + 1) (mkList [Value.sym "IF", p, c, a]) env st =
          evalF prims fuel c env st1) ∧
    (∀ (prims : Nat → List Value → Except XErr Value) (fuel : Nat) (p c a : Value)
        (env : Env) (st st1 : Ctx) (q : ℚ),
        ¬ env = [] →
        evalF prims fuel p env st = Except.ok (Value.float q, st1) →
        1 ≤ |q| →
        evalF prims (fuel + 1) (mkList [Value.sym "IF", p, c, a]) env st =
          evalF prims fuel c env st1) := by
  refine ⟨?_, ?_, ?_⟩
  · intro prims fuel p c a env st st1 q henv hp hlo hhi
    rw [evalT_if_step prims fuel p c a env st st1 (Value.float q) (ratTrunc q) henv hp rfl]
    rw [ratTrunc_eq_zero q hlo hhi]
    simp
  · intro prims fuel p c a env st st1 n henv hp hne
    rw [evalT_if_step prims fuel p c a env st st1 (Value.int n) n henv hp rfl]
    rw [if_pos hne]
  · intro prims fuel p c a env st st1 q henv hp habs
    rw [evalT_if_step prims fuel p c a env st st1 (Value.float q) (ratTrunc q) henv hp rfl]
    rw [if_pos (ratTrunc_ne_zero q habs)]

/-- Witness for C10: (IF 0.5 1 2) steps to the alternative 2; (IF 5 1 2)
and (IF -1.5 1 2) step to the consequent 1. -/
theorem C10_if_predicate_truncated_witness :
    (evalF prims0 2 (mkList [Value.sym "IF", Value.float (1/2), Value.int 1, Value.int 2])
        [0] ⟨[[]], 0⟩ = evalF prims0 1 (Value.int 2) [0] ⟨[[]], 0⟩) ∧
    (evalF prims0 2 (mkList [Value.sym "IF", Value.int 5, Value.int 1, Value.int 2])
        [0] ⟨[[]], 0⟩ = evalF prims0 1 (Value.int 1) [0] ⟨[[]], 0⟩) ∧
    (evalF prims0 2 (mkList [Value.sym "IF", Value.float (-3/2), Value.int 1, Value.int 2])
        [0] ⟨[[]], 0⟩ = evalF prims0 1 (Value.int 1) [0] ⟨[[]], 0⟩) :=
  ⟨C10_if_predicate_truncated_toward_zero.1 prims0 1 (Value.float (1/2)) (Value.int 1)
      (Value.int 2) [0] ⟨[[]], 0⟩ ⟨[[]], 0⟩ (1/2) (by decide) rfl (by norm_num) (by norm_num),
    C10_if_predicate_truncated_toward_zero.2.1 prims0 1 (Value.int 5) (Value.int 1)
      (Value.int 2) [0] ⟨[[]], 0⟩ ⟨[[]], 0⟩ 5 (by decide) rfl (by decide),
    C10_if_predicate_truncated_toward_zero.2.2 prims0 1 (Value.float (-3/2)) (Value.int 1)
      (Value.int 2) [0] ⟨[[]], 0⟩ ⟨[[]], 0⟩ (-3/2) (by decide) rfl
      (by rw [abs_of_nonpos (by norm_num)]; norm_num)⟩

/- ### C5: expansion of a function-form define -/

/-- C5: expanding the well-formed function define (DEFINE (F X) X) does
not yield the three-element form (DEFINE F (LAMBDA (X) X)): expand_r
(lisp.c:1048-1052) rebuilds the tail with lisp_make_listv(name,
expanded-lambda, body, NULL), so the original body list survives as a
fourth element after the lambda, contradicting the claim (and the
function's own comment, lisp.c:1033-1034). -/
theorem C5_function_define_keeps_trailing_body :
    expandF 5 (mkList [Value.sym "DEFINE",
        mkList [Value.sym "F", Value.sym "X"], Value.sym "X"]) =
      Except.ok (mkList [Value.sym "DEFINE", Value.sym "F",
        mkList [Value.sym "LAMBDA", mkList [Value.sym "X"], Value.sym "X"],
        mkList [Value.sym "X"]]) ∧
    lengthOpt (mkList [Value.sym "DEFINE", Value.sym "F",
        mkList [Value.sym "LAMBDA", mkList [Value.sym "X"], Value.sym "X"],
        mkList [Value.sym "X"]]) = some 4 ∧
    mkList [Value.sym "DEFINE", Value.sym "F",
        mkList [Value.sym "LAMBDA", mkList [Value.sym "X"], Value.sym "X"],
        mkList [Value.sym "X"]] ≠
      mkList [Value.sym "DEFINE", Value.sym "F",
        mkList [Value.sym "LAMBDA", mkList [Value.sym "X"], Value.sym "X"]] :=
  ⟨rfl, rfl, by decide⟩

/- ### C8: lowered keywords after expansion -/

/-- C8 counterexample: expansion succeeds on ((COND (ELSE LET)) 5) —
the ELSE branch of COND (lisp.c:1101-1108) returns the expansion of the
else-expression, here the bare symbol LET — and the result (LET 5) has
the lowered keyword LET in operator position. -/
theorem C8_counterexample_cond_else_leaks_let :
    expandF 4 (mkList [mkList [Value.sym "COND",
        mkList [Value.sym "ELSE", Value.sym "LET"]], Value.int 5]) =
      Except.ok (mkList [Value.sym "LET", Value.int 5]) ∧
    headSym (mkList [Value.sym "LET", Value.int 5]) = some "LET" ∧
    excl "LET" = true :=
  ⟨rfl, rfl, rfl⟩

/- ### C8: helper lemmas about expansion shapes and the checkers -/

theorem expandT_zero_no (t : XT) (r : Value) (h : expandT 0 t = Except.ok r) : False := by
  rw [show expandT 0 t = Except.error XErr.outOfFuel from rfl] at h
  exact Except.noConfusion h

theorem expandT_one_sym (f : Nat) (s : String) (r : Value)
    (h : expandT f (XT.one (Value.sym s)) = Except.ok r) : r = Value.sym s := by
  cases f with
  | zero => exact (expandT_zero_no _ _ h).elim
  | succ f =>
      rw [show expandT (f + 1) (XT.one (Value.sym s)) = Except.ok (Value.sym s) from rfl] at h
      injection h with h1
      exact h1.symm

theorem expandT_one_nonpair (f : Nat) (x r : Value) (hx : isPairB x = false)
    (h : expandT f (XT.one x) = Except.ok r) : r = x := by
  cases f with
  | zero => exact (expandT_zero_no _ _ h).elim
  | succ f =>
      cases x with
      | pair a d => exact Bool.noConfusion ((show isPairB (Value.pair a d) = true from rfl) ▸ hx)
      | nil =>
          rw [show expandT (f + 1) (XT.one Value.nil) = Except.ok Value.nil from rfl] at h
          injection h with h1
          exact h1.symm
      | int n =>
          rw [show expandT (f + 1) (XT.one (Value.int n)) = Except.ok (Value.int n) from rfl] at h
          injection h with h1
          exact h1.symm
      | float q =>
          rw [show expandT (f + 1) (XT.one (Value.float q)) = Except.ok (Value.float q) from rfl] at h
          injection h with h1
          exact h1.symm
      | sym s =>
          rw [show expandT (f + 1) (XT.one (Value.sym s)) = Except.ok (Value.sym s) from rfl] at h
          injection h with h1
          exact h1.symm
      | str s =>
          rw [show expandT (f + 1) (XT.one (Value.str s)) = Except.ok (Value.str s) from rfl] at h
          injection h with h1
          exact h1.symm
      | lam i a b e =>
          rw [show expandT (f + 1) (XT.one (Value.lam i a b e)) =
              Except.ok (Value.lam i a b e) from rfl] at h
          injection h with h1
          exact h1.symm
      | func i =>
          rw [show expandT (f + 1) (XT.one (Value.func i)) = Except.ok (Value.func i) from rfl] at h
          injection h with h1
          exact h1.symm

theorem exclD_false_parts (s : String) (h : exclD s = false) :
    excl s = false ∧ s ≠ "DEFINE" ∧ s ≠ "QUOTE" := by
  simp only [exclD, Bool.or_eq_false_iff, beq_eq_false_iff_ne] at h
  exact ⟨h.1.1, h.1.2, h.2⟩

theorem excl_false_of_ne (s : String) (h1 : s ≠ "COND") (h2 : s ≠ "AND")
    (h3 : s ≠ "OR") (h4 : s ≠ "LET") : excl s = false := by
  simp [excl, beq_eq_false_iff_ne, h1, h2, h3, h4]

theorem exclD_false_of_ne (s : String) (h1 : s ≠ "COND") (h2 : s ≠ "AND")
    (h3 : s ≠ "OR") (h4 : s ≠ "LET") (h5 : s ≠ "DEFINE") (h6 : s ≠ "QUOTE") :
    exclD s = false := by
  simp [exclD, excl, beq_eq_false_iff_ne, h1, h2, h3, h4, h5, h6]

theorem okT_true_cons (a d : Value) :
    okT true (Value.pair a d) = (okT false a && okT true d) := rfl

theorem okT_true_nonpair (v : Value) (hx : isPairB v = false) : okT true v = true := by
  cases v
  case pair a d => exact Bool.noConfusion ((show isPairB (Value.pair a d) = true from rfl) ▸ hx)
  all_goals rfl

theorem okT_false_nonpair (v : Value) (hx : isPairB v = false) : okT false v = true := by
  cases v
  case pair a d => exact Bool.noConfusion ((show isPairB (Value.pair a d) = true from rfl) ▸ hx)
  all_goals rfl

theorem okT_false_sym_head (s : String) (tl : Value) (hq : s ≠ "QUOTE") (hd : s ≠ "DEFINE") :
    okT false (Value.pair (Value.sym s) tl) = (!(excl s) && okT true tl) := by
  cases tl with
  | pair s1 rest =>
      cases rest with
      | pair e2 r2 =>
          rw [show okT false (Value.pair (Value.sym s) (Value.pair s1 (Value.pair e2 r2))) =
              (if s = "QUOTE" then true
               else if s = "DEFINE" then
                 (match s1 with
                  | Value.pair _ _ => false
                  | _ => true) && okT false e2
               else !(excl s) && okT false s1 && okT false e2 && okT true r2) from rfl,
            if_neg hq, if_neg hd, okT_true_cons, okT_true_cons, Bool.and_assoc, Bool.and_assoc]
      | nil =>
          rw [show okT false (Value.pair (Value.sym s) (Value.pair s1 (Value.nil))) =
              (if s = "QUOTE" then true
               else if s = "DEFINE" then
                 (match s1 with
                  | Value.pair _ _ => false
                  | _ => true)
               else !(excl s) && okT false s1) from rfl,
            if_neg hq, if_neg hd, okT_true_cons,
            show okT true (Value.nil) = true from rfl, Bool.and_true]
      | int n =>
          rw [show okT false (Value.pair (Value.sym s) (Value.pair s1 (Value.int n))) =
              (if s = "QUOTE" then true
               else if s = "DEFINE" then
                 (match s1 with
                  | Value.pair _ _ => false
                  | _ => true)
               else !(excl s) && okT false s1) from rfl,
            if_neg hq, if_neg hd, okT_true_cons,
            show okT true (Value.int n) = true from rfl, Bool.and_true]
      | float q =>
          rw [show okT false (Value.pair (Value.sym s) (Value.pair s1 (Value.float q))) =
              (if s = "QUOTE" then true
               else if s = "DEFINE" then
                 (match s1 with
                  | Value.pair _ _ => false
                  | _ => true)
               else !(excl s) && okT false s1) from rfl,
            if_neg hq, if_neg hd, okT_true_cons,
            show okT true (Value.float q) = true from rfl, Bool.and_true]
      | sym t =>
          rw [show okT false (Value.pair (Value.sym s) (Value.pair s1 (Value.sym t))) =
              (if s = "QUOTE" then true
               else if s = "DEFINE" then
                 (match s1 with
                  | Value.pair _ _ => false
                  | _ => true)
               else !(excl s) && okT false s1) from rfl,
            if_neg hq, if_neg hd, okT_true_cons,
            show okT true (Value.sym t) = true from rfl, Bool.and_true]
      | str t =>
          rw [show okT false (Value.pair (Value.sym s) (Value.pair s1 (Value.str t))) =
              (if s = "QUOTE" then true
               else if s = "DEFINE" then
                 (match s1 with
                  | Value.pair _ _ => false
                  | _ => true)
               else !(excl s) && okT false s1) from rfl,
            if_neg hq, if_neg hd, okT_true_cons,
            show okT true (Value.str t) = true from rfl, Bool.and_true]
      | lam i xa xb xe =>
          rw [show okT false (Value.pair (Value.sym s) (Value.pair s1 (Value.lam i xa xb xe))) =
              (if s = "QUOTE" then true
               else if s = "DEFINE" then
                 (match s1 with
                  | Value.pair _ _ => false
                  | _ => true)
               else !(excl s) && okT false s1) from rfl,
            if_neg hq, if_neg hd, okT_true_cons,
            show okT true (Value.lam i xa xb xe) = true from rfl, Bool.and_true]
      | func i =>
          rw [show okT false (Value.pair (Value.sym s) (Value.pair s1 (Value.func i))) =
              (if s = "QUOTE" then true
               else if s = "DEFINE" then
                 (match s1 with
                  | Value.pair _ _ => false
                  | _ => true)
               else !(excl s) && okT false s1) from rfl,
            if_neg hq, if_neg hd, okT_true_cons,
            show okT true (Value.func i) = true from rfl, Bool.and_true]
  | nil =>
      rw [show okT false (Value.pair (Value.sym s) (Value.nil)) =
          (if s = "QUOTE" then true
           else if s = "DEFINE" then true
           else !(excl s)) from rfl,
        if_neg hq, if_neg hd,
        show okT true (Value.nil) = true from rfl, Bool.and_true]
  | int n =>
      rw [show okT false (Value.pair (Value.sym s) (Value.int n)) =
          (if s = "QUOTE" then true
           else if s = "DEFINE" then true
           else !(excl s)) from rfl,
        if_neg hq, if_neg hd,
        show okT true (Value.int n) = true from rfl, Bool.and_true]
  | float q =>
      rw [show okT false (Value.pair (Value.sym s) (Value.float q)) =
          (if s = "QUOTE" then true
           else if s = "DEFINE" then true
           else !(excl s)) from rfl,
        if_neg hq, if_neg hd,
        show okT true (Value.float q) = true from rfl, Bool.and_true]
  | sym t =>
      rw [show okT false (Value.pair (Value.sym s) (Value.sym t)) =
          (if s = "QUOTE" then true
           else if s = "DEFINE" then true
           else !(excl s)) from rfl,
        if_neg hq, if_neg hd,
        show okT true (Value.sym t) = true from rfl, Bool.and_true]
  | str t =>
      rw [show okT false (Value.pair (Value.sym s) (Value.str t)) =
          (if s = "QUOTE" then true
           else if s = "DEFINE" then true
           else !(excl s)) from rfl,
        if_neg hq, if_neg hd,
        show okT true (Value.str t) = true from rfl, Bool.and_true]
  | lam i xa xb xe =>
      rw [show okT false (Value.pair (Value.sym s) (Value.lam i xa xb xe)) =
          (if s = "QUOTE" then true
           else if s = "DEFINE" then true
           else !(excl s)) from rfl,
        if_neg hq, if_neg hd,
        show okT true (Value.lam i xa xb xe) = true from rfl, Bool.and_true]
  | func i =>
      rw [show okT false (Value.pair (Value.sym s) (Value.func i)) =
          (if s = "QUOTE" then true
           else if s = "DEFINE" then true
           else !(excl s)) from rfl,
        if_neg hq, if_neg hd,
        show okT true (Value.func i) = true from rfl, Bool.and_true]

theorem okT_false_quote_head (tl : Value) :
    okT false (Value.pair (Value.sym "QUOTE") tl) = true := by
  cases tl
  case pair s1 rest => cases rest <;> rfl
  all_goals rfl

theorem okT_false_define_sym_e2 (nm : String) (e2 rest2 : Value) :
    okT false (Value.pair (Value.sym "DEFINE")
      (Value.pair (Value.sym nm) (Value.pair e2 rest2))) = okT false e2 := rfl

theorem okT_false_define_sym_short (nm : String) (rest : Value) (hrest : isPairB rest = false) :
    okT false (Value.pair (Value.sym "DEFINE") (Value.pair (Value.sym nm) rest)) = true := by
  cases rest
  case pair a d => exact Bool.noConfusion ((show isPairB (Value.pair a d) = true from rfl) ▸ hrest)
  all_goals rfl

theorem okT_false_pair_head (a b d : Value) :
    okT false (Value.pair (Value.pair a b) d) =
      (okT false (Value.pair a b) && okT true d) := rfl

theorem okT_true_consList (l : List Value) (t : Value) (ht : okT true t = true)
    (h : ∀ v ∈ l, okT false v = true) : okT true (consList l t) = true := by
  induction l with
  | nil => exact ht
  | cons a l ih =>
      rw [show consList (a :: l) t = Value.pair a (consList l t) from rfl, okT_true_cons,
        Bool.and_eq_true]
      exact ⟨h a (List.mem_cons_self a l), ih (fun v hv => h v (List.mem_cons_of_mem a hv))⟩

theorem notBadSym_pair (a d : Value) : notBadSym (Value.pair a d) = true := rfl

theorem okT_false_consList (l : List Value)
    (h : ∀ v ∈ l, okT false v = true ∧ notBadSym v = true) :
    okT false (consList l Value.nil) = true := by
  cases l with
  | nil => rfl
  | cons a l =>
      have ha := (h a (List.mem_cons_self a l)).1
      have hna := (h a (List.mem_cons_self a l)).2
      have hrest : okT true (consList l Value.nil) = true :=
        okT_true_consList l Value.nil rfl (fun v hv => (h v (List.mem_cons_of_mem a hv)).1)
      rw [show consList (a :: l) Value.nil = Value.pair a (consList l Value.nil) from rfl]
      cases a with
      | sym s =>
          have hs : exclD s = false := by
            have := hna
            rw [show notBadSym (Value.sym s) = !(exclD s) from rfl, Bool.not_eq_true'] at this
            exact this
          obtain ⟨he, hdne, hqne⟩ := exclD_false_parts s hs
          rw [okT_false_sym_head s _ hqne hdne, Bool.and_eq_true, Bool.not_eq_true', he]
          exact ⟨rfl, hrest⟩
      | pair x y =>
          rw [okT_false_pair_head, Bool.and_eq_true]
          exact ⟨ha, hrest⟩
      | nil =>
          rw [show okT false (Value.pair Value.nil (consList l Value.nil)) =
              (okT false Value.nil && okT true (consList l Value.nil)) from rfl,
            Bool.and_eq_true]
          exact ⟨rfl, hrest⟩
      | int n =>
          rw [show okT false (Value.pair (Value.int n) (consList l Value.nil)) =
              (okT false (Value.int n) && okT true (consList l Value.nil)) from rfl,
            Bool.and_eq_true]
          exact ⟨rfl, hrest⟩
      | float q =>
          rw [show okT false (Value.pair (Value.float q) (consList l Value.nil)) =
              (okT false (Value.float q) && okT true (consList l Value.nil)) from rfl,
            Bool.and_eq_true]
          exact ⟨rfl, hrest⟩
      | str s =>
          rw [show okT false (Value.pair (Value.str s) (consList l Value.nil)) =
              (okT false (Value.str s) && okT true (consList l Value.nil)) from rfl,
            Bool.and_eq_true]
          exact ⟨rfl, hrest⟩
      | lam i x y e =>
          rw [show okT false (Value.pair (Value.lam i x y e) (consList l Value.nil)) =
              (okT false (Value.lam i x y e) && okT true (consList l Value.nil)) from rfl,
            Bool.and_eq_true]
          exact ⟨rfl, hrest⟩
      | func i =>
          rw [show okT false (Value.pair (Value.func i) (consList l Value.nil)) =
              (okT false (Value.func i) && okT true (consList l Value.nil)) from rfl,
            Bool.and_eq_true]
          exact ⟨rfl, hrest⟩

theorem okT_make_listv (s : String) (l : List Value) (hq : s ≠ "QUOTE") (hd : s ≠ "DEFINE")
    (he : excl s = false) (h : ∀ v ∈ l, okT false v = true) :
    okT false (make_listv (Value.sym s) l) = true ∧
    okT true (make_listv (Value.sym s) l) = true ∧
    notBadSym (make_listv (Value.sym s) l) = true := by
  have helems : ∀ v ∈ l.takeWhile (fun v => !(v == Value.nil)), okT false v = true :=
    fun v hv => h v ((List.takeWhile_sublist _).subset hv)
  have hspine : okT true (consList (l.takeWhile (fun v => !(v == Value.nil))) Value.nil) = true :=
    okT_true_consList _ _ rfl helems
  refine ⟨?_, ?_, rfl⟩
  · rw [show make_listv (Value.sym s) l = Value.pair (Value.sym s)
        (consList (l.takeWhile (fun v => !(v == Value.nil))) Value.nil) from rfl,
      okT_false_sym_head s _ hq hd, Bool.and_eq_true, Bool.not_eq_true', he]
    exact ⟨rfl, hspine⟩
  · rw [show make_listv (Value.sym s) l = Value.pair (Value.sym s)
        (consList (l.takeWhile (fun v => !(v == Value.nil))) Value.nil) from rfl,
      okT_true_cons, Bool.and_eq_true]
    exact ⟨rfl, hspine⟩

theorem wfC1_cons (a d : Value) : wfC 1 (Value.pair a d) = (wfC 0 a && wfC 1 d) := rfl

theorem wfC1_nonpair (v : Value) (hx : isPairB v = false) : wfC 1 v = true := by
  cases v
  case pair a d => exact Bool.noConfusion ((show isPairB (Value.pair a d) = true from rfl) ▸ hx)
  all_goals rfl

theorem wfC2_cons (b rest : Value) : wfC 2 (Value.pair b rest) = (wfC 5 b && wfC 2 rest) := rfl

theorem wfC3_cons (c rest : Value) : wfC 3 (Value.pair c rest) = (wfC 4 c && wfC 3 rest) := rfl

theorem wfC0_sym_generic (s : String) (t1 t2 : Value)
    (h1 : s ≠ "QUOTE") (h2 : s ≠ "LAMBDA") (h3 : s ≠ "DEFINE") (h4 : s ≠ "COND")
    (h5 : s ≠ "AND") (h6 : s ≠ "OR") (h7 : s ≠ "LET") :
    wfC 0 (Value.pair (Value.sym s) (Value.pair t1 t2)) = (wfC 0 t1 && wfC 1 t2) := by
  rw [show wfC 0 (Value.pair (Value.sym s) (Value.pair t1 t2)) =
      (if s = "QUOTE" then true
       else if s = "LAMBDA" then symsOnly t1 && (bodyHeadOk t2 && wfC 0 t2)
       else if s = "DEFINE" then
         (match t1 with
          | Value.pair _ sigRest => symsOnly sigRest
          | Value.sym s2 => !(exclD s2)
          | _ => true) && (bodyHeadOk t2 && wfC 0 t2)
       else if s = "COND" then wfC 4 t1 && wfC 3 t2
       else if s = "AND" then wfC 0 t1 && wfC 1 t2
       else if s = "OR" then wfC 0 t1 && wfC 1 t2
       else if s = "LET" then wfC 2 t1 && (bodyHeadOk t2 && wfC 0 t2)
       else wfC 0 t1 && wfC 1 t2) from rfl,
    if_neg h1, if_neg h2, if_neg h3, if_neg h4, if_neg h5, if_neg h6, if_neg h7]

theorem wfC1_mem (v : Value) (h : wfC 1 v = true) : ∀ c ∈ (spine v).1, wfC 0 c = true := by
  induction v with
  | pair a d iha ihd =>
      rw [wfC1_cons, Bool.and_eq_true] at h
      intro c hc
      rw [show (spine (Value.pair a d)).1 = a :: (spine d).1 from rfl] at hc
      rcases List.mem_cons.mp hc with h1 | h1
      · exact h1 ▸ h.1
      · exact ihd h.2 c h1
  | nil => intro c hc; exact absurd hc (List.not_mem_nil c)
  | int n => intro c hc; exact absurd hc (List.not_mem_nil c)
  | float q => intro c hc; exact absurd hc (List.not_mem_nil c)
  | sym s => intro c hc; exact absurd hc (List.not_mem_nil c)
  | str s => intro c hc; exact absurd hc (List.not_mem_nil c)
  | lam i a b e => intro c hc; exact absurd hc (List.not_mem_nil c)
  | func i => intro c hc; exact absurd hc (List.not_mem_nil c)

theorem wfC3_mem (v : Value) (h : wfC 3 v = true) : ∀ c ∈ (spine v).1, wfC 4 c = true := by
  induction v with
  | pair a d iha ihd =>
      rw [wfC3_cons, Bool.and_eq_true] at h
      intro c hc
      rw [show (spine (Value.pair a d)).1 = a :: (spine d).1 from rfl] at hc
      rcases List.mem_cons.mp hc with h1 | h1
      · exact h1 ▸ h.1
      · exact ihd h.2 c h1
  | nil => intro c hc; exact absurd hc (List.not_mem_nil c)
  | int n => intro c hc; exact absurd hc (List.not_mem_nil c)
  | float q => intro c hc; exact absurd hc (List.not_mem_nil c)
  | sym s => intro c hc; exact absurd hc (List.not_mem_nil c)
  | str s => intro c hc; exact absurd hc (List.not_mem_nil c)
  | lam i a b e => intro c hc; exact absurd hc (List.not_mem_nil c)
  | func i => intro c hc; exact absurd hc (List.not_mem_nil c)

theorem clause2_shape (c p e : Value) (h : clause2 c = Except.ok (p, e)) :
    c = Value.pair p (Value.pair e Value.nil) := by
  cases c
  case pair p2 w =>
    cases w
    case pair e2 t =>
      cases t
      case nil =>
        rw [show clause2 (Value.pair p2 (Value.pair e2 Value.nil)) =
            Except.ok (p2, e2) from rfl] at h
        injection h with h1
        injection h1 with hp he
        rw [← hp, ← he]
      all_goals exact Except.noConfusion h
    all_goals exact Except.noConfusion h
  all_goals exact Except.noConfusion h

theorem wfC4_of_shape (p e : Value)
    (h : wfC 4 (Value.pair p (Value.pair e Value.nil)) = true) :
    wfC 0 e = true ∧ ((∃ s, p = Value.sym s) ∨ wfC 0 p = true) := by
  cases p
  case sym s => exact ⟨h, Or.inl ⟨s, rfl⟩⟩
  all_goals exact ⟨(cast (Bool.and_eq_true _ _) h).2, Or.inr (cast (Bool.and_eq_true _ _) h).1⟩

theorem wfC4_parts (c : Value) (h : wfC 4 c = true) :
    ∃ p e, c = Value.pair p (Value.pair e Value.nil) ∧ wfC 0 e = true := by
  cases c with
  | pair p w =>
      cases w with
      | pair e t =>
          cases t with
          | nil => exact ⟨p, e, rfl, (wfC4_of_shape p e h).1⟩
          | int m => cases p <;> exact Bool.noConfusion h
          | float qq => cases p <;> exact Bool.noConfusion h
          | sym ss => cases p <;> exact Bool.noConfusion h
          | str st => cases p <;> exact Bool.noConfusion h
          | pair ta tb => cases p <;> exact Bool.noConfusion h
          | lam ii ia ib ic => cases p <;> exact Bool.noConfusion h
          | func ii => cases p <;> exact Bool.noConfusion h
      | nil => cases p <;> exact Bool.noConfusion h
      | int m => cases p <;> exact Bool.noConfusion h
      | float qq => cases p <;> exact Bool.noConfusion h
      | sym ss => cases p <;> exact Bool.noConfusion h
      | str st => cases p <;> exact Bool.noConfusion h
      | lam ii ia ib ic => cases p <;> exact Bool.noConfusion h
      | func ii => cases p <;> exact Bool.noConfusion h
  | nil => exact Bool.noConfusion h
  | int m => exact Bool.noConfusion h
  | float qq => exact Bool.noConfusion h
  | sym ss => exact Bool.noConfusion h
  | str st => exact Bool.noConfusion h
  | lam ii ia ib ic => exact Bool.noConfusion h
  | func ii => exact Bool.noConfusion h

theorem takeWhile_skip_cons (a : Value) (l : List Value) (ha : a ≠ Value.nil) :
    List.takeWhile (fun v => !(v == Value.nil)) (a :: l) =
      a :: List.takeWhile (fun v => !(v == Value.nil)) l := by
  have hb : (!(a == Value.nil)) = true := by
    rw [Bool.not_eq_true', beq_eq_false_iff_ne]
    exact ha
  rw [show List.takeWhile (fun v => !(v == Value.nil)) (a :: l) =
      (match (!(a == Value.nil)) with
       | true => a :: List.takeWhile (fun v => !(v == Value.nil)) l
       | false => []) from rfl, hb]

theorem make_listv_cons_ne (f a : Value) (l : List Value) (ha : a ≠ Value.nil) :
    make_listv f (a :: l) = Value.pair f (Value.pair a
      (consList (List.takeWhile (fun v => !(v == Value.nil)) l) Value.nil)) := by
  rw [show make_listv f (a :: l) = Value.pair f (consList (List.takeWhile
      (fun v => !(v == Value.nil)) (a :: l)) Value.nil) from rfl,
    takeWhile_skip_cons a l ha]
  rfl


theorem wfC5_parts (b : Value) (h : wfC 5 b = true) :
    ∃ vs e2, b = Value.pair (Value.sym vs) (Value.pair e2 Value.nil) ∧
      exclD vs = false ∧ wfC 0 e2 = true := by
  cases b
  case pair v w =>
    cases v
    case sym vs =>
      cases w
      case pair e2 t =>
        cases t
        case nil =>
          have h2 := cast (Bool.and_eq_true _ _) h
          exact ⟨vs, e2, rfl, cast (Bool.not_eq_true' _) h2.1, h2.2⟩
        all_goals exact Bool.noConfusion h
      all_goals exact Bool.noConfusion h
    all_goals exact Bool.noConfusion h
  all_goals exact Bool.noConfusion h

theorem symsOnly_okT (v : Value) (h : symsOnly v = true) :
    okT false v = true ∧ okT true v = true := by
  induction v with
  | pair a d iha ihd =>
      cases a
      case sym s =>
        rw [show symsOnly (Value.pair (Value.sym s) d) = (!(exclD s) && symsOnly d) from rfl,
          Bool.and_eq_true, Bool.not_eq_true'] at h
        obtain ⟨hs, hrest⟩ := h
        obtain ⟨he, hdne, hqne⟩ := exclD_false_parts _ hs
        obtain ⟨ih1, ih2⟩ := ihd hrest
        constructor
        · rw [okT_false_sym_head _ _ hqne hdne, Bool.and_eq_true, Bool.not_eq_true', he]
          exact ⟨rfl, ih2⟩
        · rw [okT_true_cons, Bool.and_eq_true]
          exact ⟨rfl, ih2⟩
      all_goals exact Bool.noConfusion h
  | nil => exact ⟨rfl, rfl⟩
  | int n => exact Bool.noConfusion h
  | float q => exact Bool.noConfusion h
  | sym s => exact Bool.noConfusion h
  | str s => exact Bool.noConfusion h
  | lam i a b e => exact Bool.noConfusion h
  | func i => exact Bool.noConfusion h

theorem okT_true_cons_parts (a d : Value) (h : okT true (Value.pair a d) = true) :
    okT false a = true ∧ okT true d = true := by
  rw [okT_true_cons, Bool.and_eq_true] at h
  exact h
theorem okT_false_cons_general (a d : Value) (ha : okT false a = true)
    (hna : notBadSym a = true) (hd2 : okT true d = true) :
    okT false (Value.pair a d) = true := by
  cases a with
  | sym s =>
      have hs : exclD s = false := by
        rw [show notBadSym (Value.sym s) = !(exclD s) from rfl, Bool.not_eq_true'] at hna
        exact hna
      obtain ⟨he, hdne, hqne⟩ := exclD_false_parts s hs
      rw [okT_false_sym_head s _ hqne hdne, Bool.and_eq_true, Bool.not_eq_true', he]
      exact ⟨rfl, hd2⟩
  | pair x y =>
      rw [okT_false_pair_head, Bool.and_eq_true]
      exact ⟨ha, hd2⟩
  | nil =>
      rw [show okT false (Value.pair Value.nil d) = (okT false Value.nil && okT true d) from rfl,
        Bool.and_eq_true]
      exact ⟨rfl, hd2⟩
  | int n =>
      rw [show okT false (Value.pair (Value.int n) d) =
          (okT false (Value.int n) && okT true d) from rfl, Bool.and_eq_true]
      exact ⟨rfl, hd2⟩
  | float q =>
      rw [show okT false (Value.pair (Value.float q) d) =
          (okT false (Value.float q) && okT true d) from rfl, Bool.and_eq_true]
      exact ⟨rfl, hd2⟩
  | str s =>
      rw [show okT false (Value.pair (Value.str s) d) =
          (okT false (Value.str s) && okT true d) from rfl, Bool.and_eq_true]
      exact ⟨rfl, hd2⟩
  | lam i x y e =>
      rw [show okT false (Value.pair (Value.lam i x y e) d) =
          (okT false (Value.lam i x y e) && okT true d) from rfl, Bool.and_eq_true]
      exact ⟨rfl, hd2⟩
  | func i =>
      rw [show okT false (Value.pair (Value.func i) d) =
          (okT false (Value.func i) && okT true d) from rfl, Bool.and_eq_true]
      exact ⟨rfl, hd2⟩

theorem symsOnly_consList (l : List Value)
    (h : ∀ v ∈ l, ∃ s, v = Value.sym s ∧ exclD s = false) :
    symsOnly (consList l Value.nil) = true := by
  induction l with
  | nil => rfl
  | cons a t ih =>
      obtain ⟨s, ha, hs⟩ := h a (List.mem_cons_self a t)
      subst ha
      rw [show consList (Value.sym s :: t) Value.nil =
          Value.pair (Value.sym s) (consList t Value.nil) from rfl,
        show symsOnly (Value.pair (Value.sym s) (consList t Value.nil)) =
          (!(exclD s) && symsOnly (consList t Value.nil)) from rfl,
        Bool.and_eq_true, Bool.not_eq_true']
      exact ⟨hs, ih (fun v hv => h v (List.mem_cons_of_mem _ hv))⟩

theorem atIndex1_some (hd tl v : Value) (h : atIndex (Value.pair hd tl) 1 = some v) :
    ∃ rest, tl = Value.pair v rest := by
  cases tl
  case pair a rest =>
      rw [show atIndex (Value.pair hd (Value.pair a rest)) 1 = some a from rfl] at h
      injection h with h1
      exact ⟨rest, by rw [h1]⟩
  all_goals exact Option.noConfusion h

theorem atIndex2_some (hd a rest v : Value)
    (h : atIndex (Value.pair hd (Value.pair a rest)) 2 = some v) :
    ∃ r2, rest = Value.pair v r2 := by
  cases rest
  case pair b r2 =>
      rw [show atIndex (Value.pair hd (Value.pair a (Value.pair b r2))) 2 = some b from rfl] at h
      injection h with h1
      exact ⟨r2, by rw [h1]⟩
  all_goals exact Option.noConfusion h

theorem wfC0_lambda_eq (t1 t2 : Value) :
    wfC 0 (Value.pair (Value.sym "LAMBDA") (Value.pair t1 t2)) =
      (symsOnly t1 && (bodyHeadOk t2 && wfC 0 t2)) := rfl

theorem wfC0_define_pair_eq (name sigRest t2 : Value) :
    wfC 0 (Value.pair (Value.sym "DEFINE")
        (Value.pair (Value.pair name sigRest) t2)) =
      (symsOnly sigRest && (bodyHeadOk t2 && wfC 0 t2)) := rfl

theorem wfC0_define_sym_eq (s2 : String) (t2 : Value) :
    wfC 0 (Value.pair (Value.sym "DEFINE") (Value.pair (Value.sym s2) t2)) =
      ((!(exclD s2)) && (bodyHeadOk t2 && wfC 0 t2)) := rfl

theorem wfC0_cond_eq (t1 t2 : Value) :
    wfC 0 (Value.pair (Value.sym "COND") (Value.pair t1 t2)) =
      (wfC 4 t1 && wfC 3 t2) := rfl

theorem wfC0_and_eq (t1 t2 : Value) :
    wfC 0 (Value.pair (Value.sym "AND") (Value.pair t1 t2)) =
      (wfC 0 t1 && wfC 1 t2) := rfl

theorem wfC0_or_eq (t1 t2 : Value) :
    wfC 0 (Value.pair (Value.sym "OR") (Value.pair t1 t2)) =
      (wfC 0 t1 && wfC 1 t2) := rfl

theorem wfC0_let_eq (t1 t2 : Value) :
    wfC 0 (Value.pair (Value.sym "LET") (Value.pair t1 t2)) =
      (wfC 2 t1 && (bodyHeadOk t2 && wfC 0 t2)) := rfl

theorem expandT_many_nil (f : Nat) (acc : List Value) :
    expandT (f + 1) (XT.many Value.nil acc) =
      Except.ok (consList acc.reverse Value.nil) := rfl

theorem expandT_many_cons (f : Nat) (a rest : Value) (acc : List Value) :
    expandT (f + 1) (XT.many (Value.pair a rest) acc) =
      (match expandT f (XT.one a) with
       | Except.error e => Except.error e
       | Except.ok r2 => expandT f (XT.many rest (r2 :: acc))) := rfl

theorem step_many (fuel : Nat) (ih1 : POne fuel) (ih3 : PMany fuel) : PMany (fuel + 1) := by
  intro it acc r hwf hacc h
  cases it with
  | nil =>
      rw [expandT_many_nil] at h
      injection h with h1
      subst h1
      have hel : ∀ v ∈ acc.reverse, okT false v = true ∧ notBadSym v = true :=
        fun v hv => hacc v (List.mem_reverse.mp hv)
      refine ⟨okT_false_consList _ hel, ?_,
        okT_true_consList _ _ rfl (fun v hv => (hel v hv).1)⟩
      cases acc.reverse with
      | nil => rfl
      | cons a l => rfl
  | pair a rest =>
      rw [expandT_many_cons] at h
      rw [wfC1_cons, Bool.and_eq_true] at hwf
      split at h
      · exact Except.noConfusion h
      · next r2 heq =>
          have hr2 := ih1 a r2 hwf.1 heq
          refine ih3 rest (r2 :: acc) r hwf.2 (fun v hv => ?_) h
          rcases List.mem_cons.mp hv with h1 | h1
          · exact h1 ▸ hr2
          · exact hacc v h1
  | int n =>
      exact Except.noConfusion ((show expandT (fuel + 1) (XT.many (Value.int n) acc) =
        Except.error XErr.ub from rfl) ▸ h)
  | float q =>
      exact Except.noConfusion ((show expandT (fuel + 1) (XT.many (Value.float q) acc) =
        Except.error XErr.ub from rfl) ▸ h)
  | sym s =>
      exact Except.noConfusion ((show expandT (fuel + 1) (XT.many (Value.sym s) acc) =
        Except.error XErr.ub from rfl) ▸ h)
  | str s =>
      exact Except.noConfusion ((show expandT (fuel + 1) (XT.many (Value.str s) acc) =
        Except.error XErr.ub from rfl) ▸ h)
  | lam i a2 b2 e2 =>
      exact Except.noConfusion ((show expandT (fuel + 1) (XT.many (Value.lam i a2 b2 e2) acc) =
        Except.error XErr.ub from rfl) ▸ h)
  | func i =>
      exact Except.noConfusion ((show expandT (fuel + 1) (XT.many (Value.func i) acc) =
        Except.error XErr.ub from rfl) ▸ h)

theorem expandT_bool_nil (f : Nat) (isAnd : Bool) (outer : Value) :
    expandT (f + 1) (XT.boolT isAnd [] outer) = Except.ok outer := rfl

theorem expandT_bool_cons (f : Nat) (isAnd : Bool) (p : Value) (rest : List Value)
    (outer : Value) :
    expandT (f + 1) (XT.boolT isAnd (p :: rest) outer) =
      (match expandT f (XT.one p) with
       | Except.error e => Except.error e
       | Except.ok pr =>
           expandT f (XT.boolT isAnd rest
             (if isAnd then make_listv (Value.sym "IF") [pr, outer, Value.int 0]
              else make_listv (Value.sym "IF") [pr, Value.int 1, outer]))) := rfl

theorem step_bool (fuel : Nat) (ih1 : POne fuel) (ih5 : PBool fuel) : PBool (fuel + 1) := by
  intro isAnd ps outer r hps hof hot hon h
  cases ps with
  | nil =>
      rw [expandT_bool_nil] at h
      injection h with h1
      subst h1
      exact ⟨hof, hon, hot⟩
  | cons p rest =>
      rw [expandT_bool_cons] at h
      split at h
      · exact Except.noConfusion h
      · next pr heq =>
          have hpr := ih1 p pr (hps p (List.mem_cons_self p rest)) heq
          have hrest : ∀ v ∈ rest, wfC 0 v = true :=
            fun v hv => hps v (List.mem_cons_of_mem p hv)
          cases isAnd with
          | true =>
              rw [if_pos rfl] at h
              have hel : ∀ v ∈ [pr, outer, Value.int 0], okT false v = true := by
                intro v hv
                simp only [List.mem_cons, List.not_mem_nil, or_false] at hv
                rcases hv with rfl | rfl | rfl
                · exact hpr.1
                · exact hof
                · rfl
              have hmk := okT_make_listv "IF" [pr, outer, Value.int 0]
                (by decide) (by decide) (by decide) hel
              exact ih5 true rest _ r hrest hmk.1 hmk.2.1 hmk.2.2 h
          | false =>
              rw [if_neg (by decide)] at h
              have hel : ∀ v ∈ [pr, Value.int 1, outer], okT false v = true := by
                intro v hv
                simp only [List.mem_cons, List.not_mem_nil, or_false] at hv
                rcases hv with rfl | rfl | rfl
                · exact hpr.1
                · rfl
                · exact hof
              have hmk := okT_make_listv "IF" [pr, Value.int 1, outer]
                (by decide) (by decide) (by decide) hel
              exact ih5 false rest _ r hrest hmk.1 hmk.2.1 hmk.2.2 h

theorem expandT_cond_nil (f : Nat) (outer : Value) :
    expandT (f + 1) (XT.condT [] outer) = Except.ok outer := rfl

theorem expandT_cond_cons (f : Nat) (c : Value) (rest : List Value) (outer : Value) :
    expandT (f + 1) (XT.condT (c :: rest) outer) =
      (match clause2 c with
       | Except.error e => Except.error e
       | Except.ok (p, e) =>
           match expandT f (XT.one p) with
           | Except.error er => Except.error er
           | Except.ok pr =>
               match expandT f (XT.one e) with
               | Except.error er => Except.error er
               | Except.ok er2 =>
                   expandT f (XT.condT rest
                     (make_listv (Value.sym "IF") [pr, er2, outer]))) := rfl

theorem step_cond (fuel : Nat) (ih1 : POne fuel) (ih4 : PCond fuel) : PCond (fuel + 1) := by
  intro cs outer r hcs hof hon h
  cases cs with
  | nil =>
      rw [expandT_cond_nil] at h
      injection h with h1
      subst h1
      exact ⟨hof, hon⟩
  | cons c rest =>
      rw [expandT_cond_cons] at h
      split at h
      · exact Except.noConfusion h
      · next p e heqc =>
          have hshape := clause2_shape c p e heqc
          have hc4 : wfC 4 c = true := hcs c (List.mem_cons_self c rest)
          rw [hshape] at hc4
          obtain ⟨hwe, hp⟩ := wfC4_of_shape p e hc4
          split at h
          · exact Except.noConfusion h
          · next pr heqp =>
              split at h
              · exact Except.noConfusion h
              · next er2 heqe =>
                  have hokpr : okT false pr = true := by
                    rcases hp with ⟨s, hps⟩ | hwp
                    · subst hps
                      rw [expandT_one_sym fuel s pr heqp]
                      rfl
                    · exact (ih1 p pr hwp heqp).1
                  have hoke := ih1 e er2 hwe heqe
                  have hel : ∀ v ∈ [pr, er2, outer], okT false v = true := by
                    intro v hv
                    simp only [List.mem_cons, List.not_mem_nil, or_false] at hv
                    rcases hv with rfl | rfl | rfl
                    · exact hokpr
                    · exact hoke.1
                    · exact hof
                  have hmk := okT_make_listv "IF" [pr, er2, outer]
                    (by decide) (by decide) (by decide) hel
                  exact ih4 rest _ r (fun v hv => hcs v (List.mem_cons_of_mem c hv))
                    hmk.1 hmk.2.2 h

theorem expandT_letT_nil (f : Nat) (accV accE : List Value) (body : Value) :
    expandT (f + 1) (XT.letT Value.nil accV accE body) =
      (match expandT f (XT.one (Value.pair (Value.sym "LAMBDA")
          (Value.pair (consList accV.reverse Value.nil) body))) with
       | Except.error e => Except.error e
       | Except.ok elamb =>
           Except.ok (Value.pair elamb (consList accE.reverse Value.nil))) := rfl

theorem expandT_letT_cons_good (f : Nat) (vs : String) (e2 rest : Value)
    (accV accE : List Value) (body : Value) :
    expandT (f + 1) (XT.letT (Value.pair (Value.pair (Value.sym vs)
        (Value.pair e2 Value.nil)) rest) accV accE body) =
      (match expandT f (XT.one e2) with
       | Except.error e => Except.error e
       | Except.ok r2 =>
           expandT f (XT.letT rest (Value.sym vs :: accV) (r2 :: accE) body)) := rfl

theorem step_let (fuel : Nat) (ih1 : POne fuel) (ih6 : PLet fuel) : PLet (fuel + 1) := by
  intro bs accV accE body r hwf2 haccV haccE hbh hwfb h
  cases bs with
  | nil =>
      rw [expandT_letT_nil] at h
      split at h
      · exact Except.noConfusion h
      · next elamb heq =>
          injection h with h1
          subst h1
          have hsyms : symsOnly (consList accV.reverse Value.nil) = true :=
            symsOnly_consList _ (fun v hv => haccV v (List.mem_reverse.mp hv))
          have hwfl : wfC 0 (Value.pair (Value.sym "LAMBDA")
              (Value.pair (consList accV.reverse Value.nil) body)) = true := by
            rw [wfC0_lambda_eq]
            simp only [Bool.and_eq_true]
            exact ⟨hsyms, hbh, hwfb⟩
          have helamb := ih1 _ elamb hwfl heq
          have hste : okT true (consList accE.reverse Value.nil) = true :=
            okT_true_consList _ _ rfl (fun v hv => haccE v (List.mem_reverse.mp hv))
          refine ⟨okT_false_cons_general _ _ helamb.1 helamb.2 hste, rfl, ?_⟩
          rw [okT_true_cons, Bool.and_eq_true]
          exact ⟨helamb.1, hste⟩
  | pair b rest =>
      rw [wfC2_cons, Bool.and_eq_true] at hwf2
      obtain ⟨vs, e2, hb, hvs, hwe2⟩ := wfC5_parts b hwf2.1
      subst hb
      rw [expandT_letT_cons_good] at h
      split at h
      · exact Except.noConfusion h
      · next r2 heq =>
          have hr2 := ih1 e2 r2 hwe2 heq
          refine ih6 rest (Value.sym vs :: accV) (r2 :: accE) body r hwf2.2 ?_ ?_ hbh hwfb h
          · intro v hv
            rcases List.mem_cons.mp hv with rfl | hv2
            · exact ⟨vs, rfl, hvs⟩
            · exact haccV v hv2
          · intro v hv
            rcases List.mem_cons.mp hv with rfl | hv2
            · exact hr2.1
            · exact haccE v hv2
  | int n => exact Bool.noConfusion hwf2
  | float q => exact Bool.noConfusion hwf2
  | sym s => exact Bool.noConfusion hwf2
  | str s => exact Bool.noConfusion hwf2
  | lam i a2 b2 e3 => exact Bool.noConfusion hwf2
  | func i => exact Bool.noConfusion hwf2

theorem expandT_one_sym_dispatch (f : Nat) (s : String) (tl : Value) :
    expandT (f + 1) (XT.one (Value.pair (Value.sym s) tl)) =
      (      if (some s : Option String) = some "QUOTE" then
        match lengthOpt (Value.pair (Value.sym s) tl) with
        | none => Except.error XErr.ub
        | some n => if n ≠ 2 then Except.error XErr.badQuote else Except.ok (Value.pair (Value.sym s) tl)
      else if (some s : Option String) = some "DEFINE" then
        match lengthOpt (Value.pair (Value.sym s) tl) with
        | none => Except.error XErr.ub
        | some n =>
          if n < 3 then Except.error XErr.badDefine
          else
            match tl with
            | Value.pair sig rest2 =>
                match sig with
                | Value.pair name sigRest =>
                    match name with
                    | Value.sym _ =>
                        if sigRest = Value.nil then Except.error XErr.ub
                        else
                          match expandT f (XT.one (Value.pair (Value.sym "LAMBDA")
                              (Value.pair sigRest rest2))) with
                          | Except.error e => Except.error e
                          | Except.ok elamb =>
                              match expandT f (XT.one rest2) with
                              | Except.error e => Except.error e
                              | Except.ok trailing =>
                                  Except.ok (Value.pair (Value.sym s)
                                    (make_listv name [elamb, trailing]))
                    | _ => Except.error XErr.badDefine
                | Value.sym _ =>
                    match expandT f (XT.one rest2) with
                    | Except.error e => Except.error e
                    | Except.ok r => Except.ok (Value.pair (Value.sym s) (Value.pair sig r))
                | _ => Except.error XErr.badDefine
            | _ => Except.error XErr.ub
      else if (some s : Option String) = some "SET!" then
        match lengthOpt (Value.pair (Value.sym s) tl) with
        | none => Except.error XErr.ub
        | some n =>
          if n ≠ 3 then Except.error XErr.badSet
          else
            match atIndex (Value.pair (Value.sym s) tl) 1 with
            | some var =>
                match var with
                | Value.sym _ =>
                    match atIndex (Value.pair (Value.sym s) tl) 2 with
                    | some e2 =>
                        match expandT f (XT.one e2) with
                        | Except.error e => Except.error e
                        | Except.ok r => Except.ok (make_listv (Value.sym s) [var, r])
                    | none => Except.error XErr.ub
                | _ => Except.error XErr.badSet
            | none => Except.error XErr.ub
      else if (some s : Option String) = some "COND" then
        match (spine tl).1.reverse with
        | [] => Except.error XErr.ub
        | c0 :: cs =>
            match clause2 c0 with
            | Except.error e => Except.error e
            | Except.ok (p, e) =>
                match p with
                | Value.sym s =>
                    if s = "ELSE" then
                      match expandT f (XT.one e) with
                      | Except.error er => Except.error er
                      | Except.ok outer => expandT f (XT.condT cs outer)
                    else expandT f (XT.condT (c0 :: cs) Value.nil)
                | _ => expandT f (XT.condT (c0 :: cs) Value.nil)
      else if (some s : Option String) = some "AND" then
        match lengthOpt (Value.pair (Value.sym s) tl) with
        | none => Except.error XErr.ub
        | some n =>
          if n < 2 then Except.error XErr.badAnd
          else
            match (spine tl).1.reverse with
            | [] => Except.error XErr.ub
            | p0 :: ps =>
                match expandT f (XT.one p0) with
                | Except.error e => Except.error e
                | Except.ok p0r =>
                    expandT f (XT.boolT true ps
                      (make_listv (Value.sym "IF") [p0r, Value.int 1, Value.int 0]))
      else if (some s : Option String) = some "OR" then
        match lengthOpt (Value.pair (Value.sym s) tl) with
        | none => Except.error XErr.ub
        | some n =>
          if n < 2 then Except.error XErr.badOr
          else
            match (spine tl).1.reverse with
            | [] => Except.error XErr.ub
            | p0 :: ps =>
                match expandT f (XT.one p0) with
                | Except.error e => Except.error e
                | Except.ok p0r =>
                    expandT f (XT.boolT false ps
                      (make_listv (Value.sym "IF") [p0r, Value.int 1, Value.int 0]))
      else if (some s : Option String) = some "LET" then
        match tl with
        | Value.pair pairsV rest2 =>
            match pairsV with
            | Value.pair _ _ => expandT f (XT.letT pairsV [] [] rest2)
            | _ => Except.error XErr.badLet
        | _ => Except.error XErr.ub
      else if (some s : Option String) = some "LAMBDA" then
        match lengthOpt (Value.pair (Value.sym s) tl) with
        | none => Except.error XErr.ub
        | some n =>
          if n > 3 then
            match tl with
            | Value.pair vars rest2 =>
                match expandT f (XT.one rest2) with
                | Except.error e => Except.error e
                | Except.ok r =>
                    match vars with
                    | Value.pair _ _ =>
                        Except.ok (make_listv (Value.sym s)
                          [vars, Value.pair (Value.sym "BEGIN") r])
                    | _ => Except.error XErr.badLambda
            | _ => Except.error XErr.ub
          else
            match tl with
            | Value.pair a rest2 =>
                match expandT f (XT.one rest2) with
                | Except.error e => Except.error e
                | Except.ok r => Except.ok (Value.pair (Value.sym s) (Value.pair a r))
            | _ => Except.error XErr.ub
      else if (some s : Option String) = some "ASSERT" then
        match tl with
        | Value.pair stmt _ =>
            match expandT f (XT.one stmt) with
            | Except.error e => Except.error e
            | Except.ok s2 =>
                Except.ok (make_listv (Value.sym s)
                  [s2, make_listv (Value.sym "QUOTE") [stmt]])
        | _ => Except.error XErr.ub
      else expandT f (XT.many (Value.pair (Value.sym s) tl) [])) := rfl

theorem expandT_one_head_nil (f : Nat) (tl : Value) :
    expandT (f + 1) (XT.one (Value.pair (Value.nil) tl)) =
      expandT f (XT.many (Value.pair (Value.nil) tl) []) := rfl

theorem expandT_one_head_int (f : Nat) (n : Int) (tl : Value) :
    expandT (f + 1) (XT.one (Value.pair (Value.int n) tl)) =
      expandT f (XT.many (Value.pair (Value.int n) tl) []) := rfl

theorem expandT_one_head_float (f : Nat) (q : ℚ) (tl : Value) :
    expandT (f + 1) (XT.one (Value.pair (Value.float q) tl)) =
      expandT f (XT.many (Value.pair (Value.float q) tl) []) := rfl

theorem expandT_one_head_str (f : Nat) (t : String) (tl : Value) :
    expandT (f + 1) (XT.one (Value.pair (Value.str t) tl)) =
      expandT f (XT.many (Value.pair (Value.str t) tl) []) := rfl

theorem expandT_one_head_pairh (f : Nat) (a b : Value) (tl : Value) :
    expandT (f + 1) (XT.one (Value.pair (Value.pair a b) tl)) =
      expandT f (XT.many (Value.pair (Value.pair a b) tl) []) := rfl

theorem expandT_one_head_lam (f : Nat) (i : Nat) (xa xb : Value) (xe : List Nat) (tl : Value) :
    expandT (f + 1) (XT.one (Value.pair (Value.lam i xa xb xe) tl)) =
      expandT f (XT.many (Value.pair (Value.lam i xa xb xe) tl) []) := rfl

theorem expandT_one_head_func (f : Nat) (i : Nat) (tl : Value) :
    expandT (f + 1) (XT.one (Value.pair (Value.func i) tl)) =
      expandT f (XT.many (Value.pair (Value.func i) tl) []) := rfl

theorem step_one (fuel : Nat) (ih1 : POne fuel) (ih2 : PBody fuel) (ih3 : PMany fuel)
    (ih4 : PCond fuel) (ih5 : PBool fuel) (ih6 : PLet fuel) :
    POne (fuel + 1) ∧ PBody (fuel + 1) := by
  have main : ∀ x r, wfC 0 x = true → expandT (fuel + 1) (XT.one x) = Except.ok r →
      okT false r = true ∧ notBadSym r = true ∧
        (bodyHeadOk x = true → okT true r = true) := by
    intro x r hwf h
    cases x with
    | nil =>
        rw [expandT_one_nonpair (fuel + 1) (Value.nil) r rfl h]
        exact ⟨rfl, rfl, fun _ => rfl⟩
    | int n =>
        rw [expandT_one_nonpair (fuel + 1) (Value.int n) r rfl h]
        exact ⟨rfl, rfl, fun _ => rfl⟩
    | float q =>
        rw [expandT_one_nonpair (fuel + 1) (Value.float q) r rfl h]
        exact ⟨rfl, rfl, fun _ => rfl⟩
    | str t =>
        rw [expandT_one_nonpair (fuel + 1) (Value.str t) r rfl h]
        exact ⟨rfl, rfl, fun _ => rfl⟩
    | lam i xa xb xe =>
        rw [expandT_one_nonpair (fuel + 1) (Value.lam i xa xb xe) r rfl h]
        exact ⟨rfl, rfl, fun _ => rfl⟩
    | func i =>
        rw [expandT_one_nonpair (fuel + 1) (Value.func i) r rfl h]
        exact ⟨rfl, rfl, fun _ => rfl⟩
    | sym s =>
        rw [expandT_one_sym (fuel + 1) s r h]
        exact ⟨rfl, hwf, fun _ => rfl⟩
    | pair hd tl =>
        cases hd with
        | nil =>
            rw [expandT_one_head_nil] at h
            have hwf1 : wfC 1 (Value.pair Value.nil tl) = true := hwf
            have hm := ih3 _ [] r hwf1 (fun v hv => absurd hv (List.not_mem_nil v)) h
            exact ⟨hm.1, hm.2.1, fun _ => hm.2.2⟩
        | int n =>
            rw [expandT_one_head_int] at h
            have hwf1 : wfC 1 (Value.pair (Value.int n) tl) = true := hwf
            have hm := ih3 _ [] r hwf1 (fun v hv => absurd hv (List.not_mem_nil v)) h
            exact ⟨hm.1, hm.2.1, fun _ => hm.2.2⟩
        | float q =>
            rw [expandT_one_head_float] at h
            have hwf1 : wfC 1 (Value.pair (Value.float q) tl) = true := hwf
            have hm := ih3 _ [] r hwf1 (fun v hv => absurd hv (List.not_mem_nil v)) h
            exact ⟨hm.1, hm.2.1, fun _ => hm.2.2⟩
        | str t =>
            rw [expandT_one_head_str] at h
            have hwf1 : wfC 1 (Value.pair (Value.str t) tl) = true := hwf
            have hm := ih3 _ [] r hwf1 (fun v hv => absurd hv (List.not_mem_nil v)) h
            exact ⟨hm.1, hm.2.1, fun _ => hm.2.2⟩
        | lam i xa xb xe =>
            rw [expandT_one_head_lam] at h
            have hwf1 : wfC 1 (Value.pair (Value.lam i xa xb xe) tl) = true := hwf
            have hm := ih3 _ [] r hwf1 (fun v hv => absurd hv (List.not_mem_nil v)) h
            exact ⟨hm.1, hm.2.1, fun _ => hm.2.2⟩
        | func i =>
            rw [expandT_one_head_func] at h
            have hwf1 : wfC 1 (Value.pair (Value.func i) tl) = true := hwf
            have hm := ih3 _ [] r hwf1 (fun v hv => absurd hv (List.not_mem_nil v)) h
            exact ⟨hm.1, hm.2.1, fun _ => hm.2.2⟩
        | pair a b =>
            rw [expandT_one_head_pairh] at h
            have hwf1 : wfC 1 (Value.pair (Value.pair a b) tl) = true := hwf
            have hm := ih3 _ [] r hwf1 (fun v hv => absurd hv (List.not_mem_nil v)) h
            exact ⟨hm.1, hm.2.1, fun _ => hm.2.2⟩
        | sym s =>
            rw [expandT_one_sym_dispatch] at h
            by_cases hq : s = "QUOTE"
            · subst hq
              rw [if_pos rfl] at h
              split at h
              · exact Except.noConfusion h
              · split at h
                · exact Except.noConfusion h
                · injection h with h1
                  subst h1
                  exact ⟨okT_false_quote_head tl, rfl, fun hb =>
                    Bool.noConfusion ((show bodyHeadOk (Value.pair (Value.sym "QUOTE") tl) =
                      false from rfl) ▸ hb)⟩
            · rw [if_neg (fun hc => hq (Option.some.inj hc))] at h
              by_cases hdf : s = "DEFINE"
              · subst hdf
                rw [if_pos rfl] at h
                cases tl with
                | nil => exact Except.noConfusion h
                | int n2 => exact Except.noConfusion h
                | float q2 => exact Except.noConfusion h
                | sym sv => exact Except.noConfusion h
                | str t3 => exact Except.noConfusion h
                | lam i2 xa xb xe => exact Except.noConfusion h
                | func i2 => exact Except.noConfusion h
                | pair sig rest2 =>
                    rcases hlen : lengthOpt (Value.pair (Value.sym "DEFINE")
                        (Value.pair sig rest2)) with _ | n
                    · rw [hlen] at h
                      exact Except.noConfusion h
                    · rw [hlen] at h
                      cases sig with
                      | nil =>
                          have h2 : (if n < 3 then (Except.error XErr.badDefine :
                              Except XErr Value) else Except.error XErr.badDefine) =
                              Except.ok r := h
                          rw [ite_self] at h2
                          exact Except.noConfusion h2
                      | int n3 =>
                          have h2 : (if n < 3 then (Except.error XErr.badDefine :
                              Except XErr Value) else Except.error XErr.badDefine) =
                              Except.ok r := h
                          rw [ite_self] at h2
                          exact Except.noConfusion h2
                      | float q3 =>
                          have h2 : (if n < 3 then (Except.error XErr.badDefine :
                              Except XErr Value) else Except.error XErr.badDefine) =
                              Except.ok r := h
                          rw [ite_self] at h2
                          exact Except.noConfusion h2
                      | str t4 =>
                          have h2 : (if n < 3 then (Except.error XErr.badDefine :
                              Except XErr Value) else Except.error XErr.badDefine) =
                              Except.ok r := h
                          rw [ite_self] at h2
                          exact Except.noConfusion h2
                      | lam i3 ya yb ye =>
                          have h2 : (if n < 3 then (Except.error XErr.badDefine :
                              Except XErr Value) else Except.error XErr.badDefine) =
                              Except.ok r := h
                          rw [ite_self] at h2
                          exact Except.noConfusion h2
                      | func i3 =>
                          have h2 : (if n < 3 then (Except.error XErr.badDefine :
                              Except XErr Value) else Except.error XErr.badDefine) =
                              Except.ok r := h
                          rw [ite_self] at h2
                          exact Except.noConfusion h2
                      | sym s2 =>
                          have h2 : (if n < 3 then (Except.error XErr.badDefine :
                              Except XErr Value)
                            else match expandT fuel (XT.one rest2) with
                              | Except.error e => Except.error e
                              | Except.ok r2 => Except.ok (Value.pair (Value.sym "DEFINE")
                                (Value.pair (Value.sym s2) r2))) = Except.ok r := h
                          by_cases hn : n < 3
                          · rw [if_pos hn] at h2
                            exact Except.noConfusion h2
                          · rw [if_neg hn] at h2
                            split at h2
                            · exact Except.noConfusion h2
                            · next r2 heq =>
                                injection h2 with h1
                                subst h1
                                rw [wfC0_define_sym_eq] at hwf
                                simp only [Bool.and_eq_true] at hwf
                                obtain ⟨hex, hbh, hwfb⟩ := hwf
                                have hr2 := ih2 rest2 r2 hbh hwfb heq
                                refine ⟨?_, rfl, fun _ => ?_⟩
                                · cases r2 with
                                  | pair e2 rr =>
                                      rw [okT_false_define_sym_e2]
                                      exact (okT_true_cons_parts e2 rr hr2.2.2).1
                                  | nil => exact okT_false_define_sym_short s2 _ rfl
                                  | int m2 => exact okT_false_define_sym_short s2 _ rfl
                                  | float q4 => exact okT_false_define_sym_short s2 _ rfl
                                  | sym s3 => exact okT_false_define_sym_short s2 _ rfl
                                  | str t5 => exact okT_false_define_sym_short s2 _ rfl
                                  | lam i4 za zb ze => exact okT_false_define_sym_short s2 _ rfl
                                  | func i4 => exact okT_false_define_sym_short s2 _ rfl
                                · rw [okT_true_cons, Bool.and_eq_true, okT_true_cons,
                                    Bool.and_eq_true]
                                  exact ⟨rfl, rfl, hr2.2.2⟩
                      | pair name sigRest =>
                          cases name with
                          | nil =>
                              have h2 : (if n < 3 then (Except.error XErr.badDefine :
                                  Except XErr Value) else Except.error XErr.badDefine) =
                                  Except.ok r := h
                              rw [ite_self] at h2
                              exact Except.noConfusion h2
                          | int n4 =>
                              have h2 : (if n < 3 then (Except.error XErr.badDefine :
                                  Except XErr Value) else Except.error XErr.badDefine) =
                                  Except.ok r := h
                              rw [ite_self] at h2
                              exact Except.noConfusion h2
                          | float q5 =>
                              have h2 : (if n < 3 then (Except.error XErr.badDefine :
                                  Except XErr Value) else Except.error XErr.badDefine) =
                                  Except.ok r := h
                              rw [ite_self] at h2
                              exact Except.noConfusion h2
                          | str t6 =>
                              have h2 : (if n < 3 then (Except.error XErr.badDefine :
                                  Except XErr Value) else Except.error XErr.badDefine) =
                                  Except.ok r := h
                              rw [ite_self] at h2
                              exact Except.noConfusion h2
                          | pair na nb =>
                              have h2 : (if n < 3 then (Except.error XErr.badDefine :
                                  Except XErr Value) else Except.error XErr.badDefine) =
                                  Except.ok r := h
                              rw [ite_self] at h2
                              exact Except.noConfusion h2
                          | lam i5 wa wb we =>
                              have h2 : (if n < 3 then (Except.error XErr.badDefine :
                                  Except XErr Value) else Except.error XErr.badDefine) =
                                  Except.ok r := h
                              rw [ite_self] at h2
                              exact Except.noConfusion h2
                          | func i5 =>
                              have h2 : (if n < 3 then (Except.error XErr.badDefine :
                                  Except XErr Value) else Except.error XErr.badDefine) =
                                  Except.ok r := h
                              rw [ite_self] at h2
                              exact Except.noConfusion h2
                          | sym nm =>
                              have h2 : (if n < 3 then (Except.error XErr.badDefine :
                                  Except XErr Value)
                                else if sigRest = Value.nil then Except.error XErr.ub
                                else match expandT fuel (XT.one (Value.pair (Value.sym "LAMBDA")
                                    (Value.pair sigRest rest2))) with
                                  | Except.error e => Except.error e
                                  | Except.ok elamb =>
                                      match expandT fuel (XT.one rest2) with
                                      | Except.error e => Except.error e
                                      | Except.ok trailing =>
                                          Except.ok (Value.pair (Value.sym "DEFINE")
                                            (make_listv (Value.sym nm) [elamb, trailing]))) =
                                Except.ok r := h
                              by_cases hn : n < 3
                              · rw [if_pos hn] at h2
                                exact Except.noConfusion h2
                              · rw [if_neg hn] at h2
                                by_cases hsg : sigRest = Value.nil
                                · rw [if_pos hsg] at h2
                                  exact Except.noConfusion h2
                                · rw [if_neg hsg] at h2
                                  split at h2
                                  · exact Except.noConfusion h2
                                  · next elamb heq1 =>
                                      split at h2
                                      · exact Except.noConfusion h2
                                      · next trailing heq2 =>
                                          injection h2 with h1
                                          subst h1
                                          rw [wfC0_define_pair_eq] at hwf
                                          simp only [Bool.and_eq_true] at hwf
                                          obtain ⟨hsyms, hbh, hwfb⟩ := hwf
                                          have hwflam : wfC 0 (Value.pair (Value.sym "LAMBDA")
                                              (Value.pair sigRest rest2)) = true := by
                                            rw [wfC0_lambda_eq]
                                            simp only [Bool.and_eq_true]
                                            exact ⟨hsyms, hbh, hwfb⟩
                                          have helamb := ih1 _ elamb hwflam heq1
                                          refine ⟨?_, rfl, fun hb => ?_⟩
                                          · by_cases hne : elamb = Value.nil
                                            · subst hne
                                              rw [show make_listv (Value.sym nm) [Value.nil, trailing] =
                                                  Value.pair (Value.sym nm) Value.nil from rfl]
                                              exact okT_false_define_sym_short nm Value.nil rfl
                                            · rw [make_listv_cons_ne (Value.sym nm) elamb [trailing] hne,
                                                okT_false_define_sym_e2]
                                              exact helamb.1
                                          · exact Bool.noConfusion ((show bodyHeadOk (Value.pair
                                              (Value.sym "DEFINE") (Value.pair (Value.pair (Value.sym nm)
                                                sigRest) rest2)) = false from rfl) ▸ hb)
              · rw [if_neg (fun hc => hdf (Option.some.inj hc))] at h
                by_cases hst : s = "SET!"
                · subst hst
                  rw [if_pos rfl] at h
                  split at h
                  · exact Except.noConfusion h
                  · split at h
                    · exact Except.noConfusion h
                    · split at h
                      · next var hvar =>
                          split at h
                          · next vs =>
                              split at h
                              · next e2v he2 =>
                                  split at h
                                  · exact Except.noConfusion h
                                  · next r2 heq =>
                                      injection h with h1
                                      subst h1
                                      obtain ⟨rest1, htl⟩ := atIndex1_some _ _ _ hvar
                                      subst htl
                                      obtain ⟨r3, hr3⟩ := atIndex2_some _ _ _ _ he2
                                      subst hr3
                                      rw [wfC0_sym_generic "SET!" _ _ (by decide) (by decide)
                                          (by decide) (by decide) (by decide) (by decide)
                                          (by decide),
                                        Bool.and_eq_true, wfC1_cons, Bool.and_eq_true] at hwf
                                      have hr2 := ih1 e2v r2 hwf.2.1 heq
                                      have hel : ∀ v ∈ [Value.sym vs, r2],
                                          okT false v = true := by
                                        intro v hv
                                        simp only [List.mem_cons, List.not_mem_nil,
                                          or_false] at hv
                                        rcases hv with rfl | rfl
                                        · rfl
                                        · exact hr2.1
                                      have hmk := okT_make_listv "SET!" [Value.sym vs, r2]
                                        (by decide) (by decide) (by decide) hel
                                      exact ⟨hmk.1, hmk.2.2, fun _ => hmk.2.1⟩
                              · exact Except.noConfusion h
                          · exact Except.noConfusion h
                      · exact Except.noConfusion h
                · rw [if_neg (fun hc => hst (Option.some.inj hc))] at h
                  by_cases hcn : s = "COND"
                  · subst hcn
                    rw [if_pos rfl] at h
                    cases tl with
                    | nil => exact Except.noConfusion h
                    | int n2 => exact Except.noConfusion h
                    | float q2 => exact Except.noConfusion h
                    | sym sv => exact Except.noConfusion h
                    | str t3 => exact Except.noConfusion h
                    | lam i2 xa xb xe => exact Except.noConfusion h
                    | func i2 => exact Except.noConfusion h
                    | pair t1 t2 =>
                        rw [wfC0_cond_eq, Bool.and_eq_true] at hwf
                        obtain ⟨hcl1, hcrest⟩ := hwf
                        have hall : ∀ c ∈ (spine (Value.pair t1 t2)).1.reverse,
                            wfC 4 c = true := by
                          intro c hc
                          rw [List.mem_reverse, show (spine (Value.pair t1 t2)).1 =
                            t1 :: (spine t2).1 from rfl] at hc
                          rcases List.mem_cons.mp hc with h1 | h1
                          · exact h1 ▸ hcl1
                          · exact wfC3_mem t2 hcrest c h1
                        rcases hrev : (spine (Value.pair t1 t2)).1.reverse with _ | ⟨c0, cs⟩
                        · rw [show (spine (Value.pair t1 t2)).1 =
                            t1 :: (spine t2).1 from rfl] at hrev
                          exact absurd hrev (by simp)
                        · rw [hrev] at h
                          have hc0 : wfC 4 c0 = true := hall c0
                            (by rw [hrev]; exact List.mem_cons_self c0 cs)
                          have hcs : ∀ c ∈ cs, clauseOk c = true := fun c hc =>
                            hall c (by rw [hrev]; exact List.mem_cons_of_mem _ hc)
                          obtain ⟨p, e, hc0eq, hwfe⟩ := wfC4_parts c0 hc0
                          subst hc0eq
                          cases p with
                          | sym s2 =>
                              have h2 : (if s2 = "ELSE" then
                                  (match expandT fuel (XT.one e) with
                                   | Except.error er => Except.error er
                                   | Except.ok outer => expandT fuel (XT.condT cs outer))
                                else expandT fuel (XT.condT (Value.pair (Value.sym s2)
                                  (Value.pair e Value.nil) :: cs) Value.nil)) =
                                Except.ok r := h
                              by_cases hel : s2 = "ELSE"
                              · rw [if_pos hel] at h2
                                split at h2
                                · exact Except.noConfusion h2
                                · next outer heqo =>
                                    have houter := ih1 e outer hwfe heqo
                                    have hm := ih4 cs outer r hcs houter.1 houter.2 h2
                                    exact ⟨hm.1, hm.2, fun hb => Bool.noConfusion
                                      ((show bodyHeadOk (Value.pair (Value.sym "COND")
                                        (Value.pair t1 t2)) = false from rfl) ▸ hb)⟩
                              · rw [if_neg hel] at h2
                                have hcall : ∀ c ∈ (Value.pair (Value.sym s2)
                                    (Value.pair e Value.nil) :: cs), clauseOk c = true := by
                                  intro c hc
                                  rcases List.mem_cons.mp hc with h1 | h1
                                  · exact h1 ▸ hc0
                                  · exact hcs c h1
                                have hm := ih4 _ Value.nil r hcall rfl rfl h2
                                exact ⟨hm.1, hm.2, fun hb => Bool.noConfusion
                                  ((show bodyHeadOk (Value.pair (Value.sym "COND")
                                    (Value.pair t1 t2)) = false from rfl) ▸ hb)⟩
                          | nil =>
                              have h2 : expandT fuel (XT.condT (Value.pair (Value.nil)
                                  (Value.pair e Value.nil) :: cs) Value.nil) =
                                Except.ok r := h
                              have hcall : ∀ c ∈ (Value.pair (Value.nil)
                                  (Value.pair e Value.nil) :: cs), clauseOk c = true := by
                                intro c hc
                                rcases List.mem_cons.mp hc with h1 | h1
                                · exact h1 ▸ hc0
                                · exact hcs c h1
                              have hm := ih4 _ Value.nil r hcall rfl rfl h2
                              exact ⟨hm.1, hm.2, fun hb => Bool.noConfusion
                                ((show bodyHeadOk (Value.pair (Value.sym "COND")
                                  (Value.pair t1 t2)) = false from rfl) ▸ hb)⟩
                          | int n3 =>
                              have h2 : expandT fuel (XT.condT (Value.pair (Value.int n3)
                                  (Value.pair e Value.nil) :: cs) Value.nil) =
                                Except.ok r := h
                              have hcall : ∀ c ∈ (Value.pair (Value.int n3)
                                  (Value.pair e Value.nil) :: cs), clauseOk c = true := by
                                intro c hc
                                rcases List.mem_cons.mp hc with h1 | h1
                                · exact h1 ▸ hc0
                                · exact hcs c h1
                              have hm := ih4 _ Value.nil r hcall rfl rfl h2
                              exact ⟨hm.1, hm.2, fun hb => Bool.noConfusion
                                ((show bodyHeadOk (Value.pair (Value.sym "COND")
                                  (Value.pair t1 t2)) = false from rfl) ▸ hb)⟩
                          | float q3 =>
                              have h2 : expandT fuel (XT.condT (Value.pair (Value.float q3)
                                  (Value.pair e Value.nil) :: cs) Value.nil) =
                                Except.ok r := h
                              have hcall : ∀ c ∈ (Value.pair (Value.float q3)
                                  (Value.pair e Value.nil) :: cs), clauseOk c = true := by
                                intro c hc
                                rcases List.mem_cons.mp hc with h1 | h1
                                · exact h1 ▸ hc0
                                · exact hcs c h1
                              have hm := ih4 _ Value.nil r hcall rfl rfl h2
                              exact ⟨hm.1, hm.2, fun hb => Bool.noConfusion
                                ((show bodyHeadOk (Value.pair (Value.sym "COND")
                                  (Value.pair t1 t2)) = false from rfl) ▸ hb)⟩
                          | str t4 =>
                              have h2 : expandT fuel (XT.condT (Value.pair (Value.str t4)
                                  (Value.pair e Value.nil) :: cs) Value.nil) =
                                Except.ok r := h
                              have hcall : ∀ c ∈ (Value.pair (Value.str t4)
                                  (Value.pair e Value.nil) :: cs), clauseOk c = true := by
                                intro c hc
                                rcases List.mem_cons.mp hc with h1 | h1
                                · exact h1 ▸ hc0
                                · exact hcs c h1
                              have hm := ih4 _ Value.nil r hcall rfl rfl h2
                              exact ⟨hm.1, hm.2, fun hb => Bool.noConfusion
                                ((show bodyHeadOk (Value.pair (Value.sym "COND")
                                  (Value.pair t1 t2)) = false from rfl) ▸ hb)⟩
                          | pair pa pb =>
                              have h2 : expandT fuel (XT.condT (Value.pair (Value.pair pa pb)
                                  (Value.pair e Value.nil) :: cs) Value.nil) =
                                Except.ok r := h
                              have hcall : ∀ c ∈ (Value.pair (Value.pair pa pb)
                                  (Value.pair e Value.nil) :: cs), clauseOk c = true := by
                                intro c hc
                                rcases List.mem_cons.mp hc with h1 | h1
                                · exact h1 ▸ hc0
                                · exact hcs c h1
                              have hm := ih4 _ Value.nil r hcall rfl rfl h2
                              exact ⟨hm.1, hm.2, fun hb => Bool.noConfusion
                                ((show bodyHeadOk (Value.pair (Value.sym "COND")
                                  (Value.pair t1 t2)) = false from rfl) ▸ hb)⟩
                          | lam i3 ya yb ye =>
                              have h2 : expandT fuel (XT.condT (Value.pair (Value.lam i3 ya yb ye)
                                  (Value.pair e Value.nil) :: cs) Value.nil) =
                                Except.ok r := h
                              have hcall : ∀ c ∈ (Value.pair (Value.lam i3 ya yb ye)
                                  (Value.pair e Value.nil) :: cs), clauseOk c = true := by
                                intro c hc
                                rcases List.mem_cons.mp hc with h1 | h1
                                · exact h1 ▸ hc0
                                · exact hcs c h1
                              have hm := ih4 _ Value.nil r hcall rfl rfl h2
                              exact ⟨hm.1, hm.2, fun hb => Bool.noConfusion
                                ((show bodyHeadOk (Value.pair (Value.sym "COND")
                                  (Value.pair t1 t2)) = false from rfl) ▸ hb)⟩
                          | func i3 =>
                              have h2 : expandT fuel (XT.condT (Value.pair (Value.func i3)
                                  (Value.pair e Value.nil) :: cs) Value.nil) =
                                Except.ok r := h
                              have hcall : ∀ c ∈ (Value.pair (Value.func i3)
                                  (Value.pair e Value.nil) :: cs), clauseOk c = true := by
                                intro c hc
                                rcases List.mem_cons.mp hc with h1 | h1
                                · exact h1 ▸ hc0
                                · exact hcs c h1
                              have hm := ih4 _ Value.nil r hcall rfl rfl h2
                              exact ⟨hm.1, hm.2, fun hb => Bool.noConfusion
                                ((show bodyHeadOk (Value.pair (Value.sym "COND")
                                  (Value.pair t1 t2)) = false from rfl) ▸ hb)⟩
                  · rw [if_neg (fun hc => hcn (Option.some.inj hc))] at h
                    by_cases han : s = "AND"
                    · subst han
                      rw [if_pos rfl] at h
                      split at h
                      · exact Except.noConfusion h
                      · split at h
                        · exact Except.noConfusion h
                        · split at h
                          · exact Except.noConfusion h
                          · next p0 ps hrev =>
                              split at h
                              · exact Except.noConfusion h
                              · next p0r heq =>
                                  cases tl with
                                  | pair t1 t2 =>
                                      rw [wfC0_and_eq, Bool.and_eq_true] at hwf
                                      have hall : ∀ p ∈ (spine (Value.pair t1 t2)).1,
                                          wfC 0 p = true := by
                                        intro p hp
                                        rw [show (spine (Value.pair t1 t2)).1 =
                                            t1 :: (spine t2).1 from rfl] at hp
                                        rcases List.mem_cons.mp hp with h1 | h1
                                        · exact h1 ▸ hwf.1
                                        · exact wfC1_mem t2 hwf.2 p h1
                                      have hps2 : ∀ p2 ∈ p0 :: ps, wfC 0 p2 = true :=
                                        fun p2 hp2 => hall p2
                                          (List.mem_reverse.mp (hrev ▸ hp2))
                                      have hp0r := ih1 p0 p0r
                                        (hps2 p0 (List.mem_cons_self p0 ps)) heq
                                      have hel : ∀ v ∈ [p0r, Value.int 1, Value.int 0],
                                          okT false v = true := by
                                        intro v hv
                                        simp only [List.mem_cons, List.not_mem_nil,
                                          or_false] at hv
                                        rcases hv with rfl | rfl | rfl
                                        · exact hp0r.1
                                        · rfl
                                        · rfl
                                      have hmk := okT_make_listv "IF"
                                        [p0r, Value.int 1, Value.int 0]
                                        (by decide) (by decide) (by decide) hel
                                      have hm := ih5 true ps _ r
                                        (fun p2 hp => hps2 p2 (List.mem_cons_of_mem p0 hp))
                                        hmk.1 hmk.2.1 hmk.2.2 h
                                      exact ⟨hm.1, hm.2.1, fun _ => hm.2.2⟩
                                  | nil =>
                                      rw [show (spine Value.nil).1 = ([] : List Value)
                                        from rfl, List.reverse_nil] at hrev
                                      exact List.noConfusion hrev
                                  | int n2 =>
                                      rw [show (spine (Value.int n2)).1 = ([] : List Value)
                                        from rfl, List.reverse_nil] at hrev
                                      exact List.noConfusion hrev
                                  | float q2 =>
                                      rw [show (spine (Value.float q2)).1 = ([] : List Value)
                                        from rfl, List.reverse_nil] at hrev
                                      exact List.noConfusion hrev
                                  | sym s2 =>
                                      rw [show (spine (Value.sym s2)).1 = ([] : List Value)
                                        from rfl, List.reverse_nil] at hrev
                                      exact List.noConfusion hrev
                                  | str t3 =>
                                      rw [show (spine (Value.str t3)).1 = ([] : List Value)
                                        from rfl, List.reverse_nil] at hrev
                                      exact List.noConfusion hrev
                                  | lam i2 xa xb xe =>
                                      rw [show (spine (Value.lam i2 xa xb xe)).1 =
                                        ([] : List Value) from rfl, List.reverse_nil] at hrev
                                      exact List.noConfusion hrev
                                  | func i2 =>
                                      rw [show (spine (Value.func i2)).1 = ([] : List Value)
                                        from rfl, List.reverse_nil] at hrev
                                      exact List.noConfusion hrev
                    · rw [if_neg (fun hc => han (Option.some.inj hc))] at h
                      by_cases hor : s = "OR"
                      · subst hor
                        rw [if_pos rfl] at h
                        split at h
                        · exact Except.noConfusion h
                        · split at h
                          · exact Except.noConfusion h
                          · split at h
                            · exact Except.noConfusion h
                            · next p0 ps hrev =>
                                split at h
                                · exact Except.noConfusion h
                                · next p0r heq =>
                                    cases tl with
                                    | pair t1 t2 =>
                                        rw [wfC0_or_eq, Bool.and_eq_true] at hwf
                                        have hall : ∀ p ∈ (spine (Value.pair t1 t2)).1,
                                            wfC 0 p = true := by
                                          intro p hp
                                          rw [show (spine (Value.pair t1 t2)).1 =
                                              t1 :: (spine t2).1 from rfl] at hp
                                          rcases List.mem_cons.mp hp with h1 | h1
                                          · exact h1 ▸ hwf.1
                                          · exact wfC1_mem t2 hwf.2 p h1
                                        have hps2 : ∀ p2 ∈ p0 :: ps, wfC 0 p2 = true :=
                                          fun p2 hp2 => hall p2
                                            (List.mem_reverse.mp (hrev ▸ hp2))
                                        have hp0r := ih1 p0 p0r
                                          (hps2 p0 (List.mem_cons_self p0 ps)) heq
                                        have hel : ∀ v ∈ [p0r, Value.int 1, Value.int 0],
                                            okT false v = true := by
                                          intro v hv
                                          simp only [List.mem_cons, List.not_mem_nil,
                                            or_false] at hv
                                          rcases hv with rfl | rfl | rfl
                                          · exact hp0r.1
                                          · rfl
                                          · rfl
                                        have hmk := okT_make_listv "IF"
                                          [p0r, Value.int 1, Value.int 0]
                                          (by decide) (by decide) (by decide) hel
                                        have hm := ih5 false ps _ r
                                          (fun p2 hp => hps2 p2 (List.mem_cons_of_mem p0 hp))
                                          hmk.1 hmk.2.1 hmk.2.2 h
                                        exact ⟨hm.1, hm.2.1, fun _ => hm.2.2⟩
                                    | nil =>
                                        rw [show (spine Value.nil).1 = ([] : List Value)
                                          from rfl, List.reverse_nil] at hrev
                                        exact List.noConfusion hrev
                                    | int n2 =>
                                        rw [show (spine (Value.int n2)).1 = ([] : List Value)
                                          from rfl, List.reverse_nil] at hrev
                                        exact List.noConfusion hrev
                                    | float q2 =>
                                        rw [show (spine (Value.float q2)).1 = ([] : List Value)
                                          from rfl, List.reverse_nil] at hrev
                                        exact List.noConfusion hrev
                                    | sym s2 =>
                                        rw [show (spine (Value.sym s2)).1 = ([] : List Value)
                                          from rfl, List.reverse_nil] at hrev
                                        exact List.noConfusion hrev
                                    | str t3 =>
                                        rw [show (spine (Value.str t3)).1 = ([] : List Value)
                                          from rfl, List.reverse_nil] at hrev
                                        exact List.noConfusion hrev
                                    | lam i2 xa xb xe =>
                                        rw [show (spine (Value.lam i2 xa xb xe)).1 =
                                          ([] : List Value) from rfl, List.reverse_nil] at hrev
                                        exact List.noConfusion hrev
                                    | func i2 =>
                                        rw [show (spine (Value.func i2)).1 = ([] : List Value)
                                          from rfl, List.reverse_nil] at hrev
                                        exact List.noConfusion hrev
                      · rw [if_neg (fun hc => hor (Option.some.inj hc))] at h
                        by_cases hlt : s = "LET"
                        · subst hlt
                          rw [if_pos rfl] at h
                          split at h
                          · next pairsV rest2 =>
                              split at h
                              · next pa pb =>
                                  rw [wfC0_let_eq] at hwf
                                  simp only [Bool.and_eq_true] at hwf
                                  obtain ⟨hw2, hbh2, hwfb2⟩ := hwf
                                  have hm := ih6 _ [] [] rest2 r hw2
                                    (fun v hv => absurd hv (List.not_mem_nil v))
                                    (fun v hv => absurd hv (List.not_mem_nil v)) hbh2 hwfb2 h
                                  exact ⟨hm.1, hm.2.1, fun _ => hm.2.2⟩
                              · exact Except.noConfusion h
                          · exact Except.noConfusion h
                        · rw [if_neg (fun hc => hlt (Option.some.inj hc))] at h
                          by_cases hlm : s = "LAMBDA"
                          · subst hlm
                            rw [if_pos rfl] at h
                            split at h
                            · exact Except.noConfusion h
                            · split at h
                              · split at h
                                · split at h
                                  · exact Except.noConfusion h
                                  · split at h
                                    · rename_i v1 r2 heq v4 va vb v7
                                      injection h with h1
                                      subst h1
                                      rw [wfC0_lambda_eq] at hwf
                                      simp only [Bool.and_eq_true] at hwf
                                      obtain ⟨hsyms, hbh2, hwfb2⟩ := hwf
                                      have hr2 := ih2 _ r2 hbh2 hwfb2 heq
                                      have hvo := symsOnly_okT _ hsyms
                                      have hbegin : okT false
                                          (Value.pair (Value.sym "BEGIN") r2) = true := by
                                        rw [okT_false_sym_head "BEGIN" r2 (by decide)
                                          (by decide), Bool.and_eq_true]
                                        exact ⟨by decide, hr2.2.2⟩
                                      have hel : ∀ v ∈ [Value.pair va vb,
                                          Value.pair (Value.sym "BEGIN") r2],
                                          okT false v = true := by
                                        intro v hv
                                        simp only [List.mem_cons, List.not_mem_nil,
                                          or_false] at hv
                                        rcases hv with rfl | rfl
                                        · exact hvo.1
                                        · exact hbegin
                                      have hmk := okT_make_listv "LAMBDA"
                                        [Value.pair va vb,
                                          Value.pair (Value.sym "BEGIN") r2]
                                        (by decide) (by decide) (by decide) hel
                                      exact ⟨hmk.1, hmk.2.2, fun _ => hmk.2.1⟩
                                    · exact Except.noConfusion h
                                · exact Except.noConfusion h
                              · split at h
                                · split at h
                                  · exact Except.noConfusion h
                                  · rename_i w1 w2 r2 heq
                                    injection h with h1
                                    subst h1
                                    rw [wfC0_lambda_eq] at hwf
                                    simp only [Bool.and_eq_true] at hwf
                                    obtain ⟨hsyms, hbh2, hwfb2⟩ := hwf
                                    have hr2 := ih2 _ r2 hbh2 hwfb2 heq
                                    have hvo := symsOnly_okT _ hsyms
                                    refine ⟨?_, rfl, fun _ => ?_⟩
                                    · rw [okT_false_sym_head "LAMBDA" _ (by decide)
                                        (by decide), Bool.and_eq_true, okT_true_cons,
                                        Bool.and_eq_true]
                                      exact ⟨by decide, hvo.1, hr2.2.2⟩
                                    · rw [okT_true_cons, Bool.and_eq_true, okT_true_cons,
                                        Bool.and_eq_true]
                                      exact ⟨rfl, hvo.1, hr2.2.2⟩
                                · exact Except.noConfusion h
                          · rw [if_neg (fun hc => hlm (Option.some.inj hc))] at h
                            by_cases has : s = "ASSERT"
                            · subst has
                              rw [if_pos rfl] at h
                              split at h
                              · next stmt t2 =>
                                  split at h
                                  · exact Except.noConfusion h
                                  · next s2r heq =>
                                      injection h with h1
                                      subst h1
                                      rw [wfC0_sym_generic "ASSERT" _ _ (by decide) (by decide)
                                          (by decide) (by decide) (by decide) (by decide)
                                          (by decide), Bool.and_eq_true] at hwf
                                      have hr := ih1 stmt s2r hwf.1 heq
                                      have hel : ∀ v ∈ [s2r,
                                          make_listv (Value.sym "QUOTE") [stmt]],
                                          okT false v = true := by
                                        intro v hv
                                        simp only [List.mem_cons, List.not_mem_nil,
                                          or_false] at hv
                                        rcases hv with rfl | rfl
                                        · exact hr.1
                                        · rw [show make_listv (Value.sym "QUOTE") [stmt] =
                                              Value.pair (Value.sym "QUOTE")
                                                (consList (List.takeWhile
                                                  (fun v => !(v == Value.nil)) [stmt])
                                                  Value.nil) from rfl]
                                          exact okT_false_quote_head _
                                      have hmk := okT_make_listv "ASSERT"
                                        [s2r, make_listv (Value.sym "QUOTE") [stmt]]
                                        (by decide) (by decide) (by decide) hel
                                      exact ⟨hmk.1, hmk.2.2, fun _ => hmk.2.1⟩
                              · exact Except.noConfusion h
                            · rw [if_neg (fun hc => has (Option.some.inj hc))] at h
                              have hsd : exclD s = false :=
                                exclD_false_of_ne s hcn han hor hlt hdf hq
                              have hwf1 : wfC 1 (Value.pair (Value.sym s) tl) = true := by
                                rw [wfC1_cons, Bool.and_eq_true]
                                refine ⟨by rw [show wfC 0 (Value.sym s) = !(exclD s) from rfl,
                                  Bool.not_eq_true', hsd], ?_⟩
                                cases tl with
                                | pair t1 t2 =>
                                    rw [wfC0_sym_generic s t1 t2 hq hlm hdf hcn han hor hlt] at hwf
                                    rw [wfC1_cons]
                                    exact hwf
                                | nil => rfl
                                | int n => rfl
                                | float q2 => rfl
                                | sym s2 => rfl
                                | str t2 => rfl
                                | lam i xa xb xe => rfl
                                | func i => rfl
                              have hm := ih3 _ [] r hwf1
                                (fun v hv => absurd hv (List.not_mem_nil v)) h
                              exact ⟨hm.1, hm.2.1, fun _ => hm.2.2⟩
  exact ⟨fun x r hwf h => ⟨(main x r hwf h).1, (main x r hwf h).2.1⟩,
    fun x r hb hwf h => ⟨(main x r hwf h).1, (main x r hwf h).2.1, (main x r hwf h).2.2 hb⟩⟩

end LispSpec

namespace LispSpec

/-- The six soundness statements hold at every fuel: simultaneous
induction over the fuel bound tying together the five recursion modes
of expand_r. -/
theorem expandT_sound (fuel : Nat) :
    POne fuel ∧ PBody fuel ∧ PMany fuel ∧ PCond fuel ∧ PBool fuel ∧ PLet fuel := by
  induction fuel with
  | zero =>
      exact ⟨fun x r _ h => (expandT_zero_no _ _ h).elim,
        fun x r _ _ h => (expandT_zero_no _ _ h).elim,
        fun it acc r _ _ h => (expandT_zero_no _ _ h).elim,
        fun cs outer r _ _ _ h => (expandT_zero_no _ _ h).elim,
        fun isAnd ps outer r _ _ _ _ h => (expandT_zero_no _ _ h).elim,
        fun bs accV accE body r _ _ _ _ _ h => (expandT_zero_no _ _ h).elim⟩
  | succ fuel ih =>
      obtain ⟨ih1, ih2, ih3, ih4, ih5, ih6⟩ := ih
      obtain ⟨p1, p2⟩ := step_one fuel ih1 ih2 ih3 ih4 ih5 ih6
      exact ⟨p1, p2, step_many fuel ih1 ih3, step_cond fuel ih1 ih4,
        step_bool fuel ih1 ih5, step_let fuel ih1 ih6⟩

/-- C8 (amended): for every program that is well-formed for expansion —
the lowered keywords, DEFINE and QUOTE never occur as bare value
expressions or quoted-into-spine positions (wfC), lambda and
function-define formal lists are plain non-keyword symbols, cond clauses
are two-element (pred expr) lists, let bindings are (var expr) pairs, and
body tails read back as forms avoid QUOTE/COND/function-DEFINE heads —
successful expansion yields a value with no lowered keyword (COND, AND,
OR, LET) in operator position anywhere outside quoted data and the name
position of define residues (okT), and the result is not itself a bare
lowered/structural keyword symbol. -/
theorem C8_wellformed_expansion_passes_checker (fuel : Nat) (x r : Value)
    (hwf : wfC 0 x = true) (h : expandF fuel x = Except.ok r) :
    okT false r = true ∧ notBadSym r = true :=
  (expandT_sound fuel).1 x r hwf h

/-- C8 witness: the well-formed program (F (AND 1 2)) expands to
(F (IF 1 (IF 2 1 0) 0)), which passes the output checker. -/
theorem C8_wellformed_expansion_witness :
    wfC 0 (mkList [Value.sym "F",
        mkList [Value.sym "AND", Value.int 1, Value.int 2]]) = true ∧
    okT false (mkList [Value.sym "F",
        mkList [Value.sym "IF", Value.int 1,
          mkList [Value.sym "IF", Value.int 2, Value.int 1, Value.int 0],
          Value.int 0]]) = true ∧
    notBadSym (mkList [Value.sym "F",
        mkList [Value.sym "IF", Value.int 1,
          mkList [Value.sym "IF", Value.int 2, Value.int 1, Value.int 0],
          Value.int 0]]) = true :=
  ⟨by decide,
    (C8_wellformed_expansion_passes_checker 9
      (mkList [Value.sym "F", mkList [Value.sym "AND", Value.int 1, Value.int 2]])
      (mkList [Value.sym "F",
        mkList [Value.sym "IF", Value.int 1,
          mkList [Value.sym "IF", Value.int 2, Value.int 1, Value.int 0],
          Value.int 0]]) (by decide) rfl).1,
    (C8_wellformed_expansion_passes_checker 9
      (mkList [Value.sym "F", mkList [Value.sym "AND", Value.int 1, Value.int 2]])
      (mkList [Value.sym "F",
        mkList [Value.sym "IF", Value.int 1,
          mkList [Value.sym "IF", Value.int 2, Value.int 1, Value.int 0],
          Value.int 0]]) (by decide) rfl).2⟩

end LispSpec
